import Mathlib

/-!
Shallow embedding of the `rust-server` HTTP/1.x codec
(`src/accept.rs`, `src/common.rs`, `src/cookie.rs`, `src/mime.rs`,
`src/request.rs`, `src/response.rs`, `src/search.rs`).

Modelling conventions:
* Rust `String`/`&str` values handled character-wise are embedded as
  `Chars := List Char`; the `urlencoding` crate works on the UTF-8 byte
  representation, so `src/search.rs` (whose parsing is dominated by
  percent-coding) is embedded on `Str := List Nat`, the UTF-8 bytes of the
  Rust string (each byte < 256).
* Machine integers (`u16`, `u32`, `u64`, `i8`) are embedded as `Nat`/`Int`
  with explicit range checks where the source's `parse` can overflow.
* Fallible Rust code (`Result`, `Option`) returns `Except`/`Option`;
  a reachable `unwrap`/index panic is made explicit by a `panicked`
  constructor in the result type of the embedded function.
* `str::to_lowercase`/`str::trim` are modelled on their ASCII behaviour
  (`asciiLower`, `asciiTrim`); every theorem that depends on them is stated
  for inputs where the two agree.
* External I/O (`TcpStream`) is modelled by a write log: `write` appends the
  buffer and returns its length.  The compression codecs (`flate2`,
  `brotli`) are external crates and are passed in as an abstract
  `Compressor` function; `none` models a codec failure.
-/

/-! ## Generic list utilities shared by the embeddings -/

/-- Type `Str` is a Rust string seen as its UTF-8 bytes. -/
abbrev Str := List Nat

/-- Type `Chars` is a Rust string seen as its characters. -/
abbrev Chars := List Char

/-- Characters of a Lean string literal, used to write Rust string literals. -/
def cs (s : String) : Chars := s.data

/-- Cumulative splitter for Rust `str::split` with a one-element pattern:
returns the segment before the first separator and the list of remaining
segments.  `split1` below packages it as the full (always non-empty) segment
list, matching the Rust iterator's contract. -/
def splitPart {α : Type} [DecidableEq α] (c : α) : List α → List α × List (List α)
  | [] => ([], [])
  | x :: t =>
    let r := splitPart c t
    if x = c then ([], r.1 :: r.2) else (x :: r.1, r.2)

/-- Rust `s.split(c).collect()` for a single-element pattern `c`:
always yields at least one segment, `"".split(c) = [""]`, and a trailing
separator yields a trailing empty segment. -/
def split1 {α : Type} [DecidableEq α] (c : α) (s : List α) : List (List α) :=
  (splitPart c s).1 :: (splitPart c s).2

/-- Rust's `while s.ends_with(c) { s.remove(s.len()-1) }` idiom: drop every
trailing element satisfying `p`. -/
def dropTrailing {α : Type} (p : α → Bool) (s : List α) : List α :=
  (s.reverse.dropWhile p).reverse

/-- Separator-joined concatenation: the shape produced by the source's
"append separator after every item, then trim the trailing separator"
formatting loops. -/
def interS {α : Type} (sep : List α) : List (List α) → List α
  | [] => []
  | [x] => x
  | x :: y :: t => x ++ sep ++ interS sep (y :: t)

/-- ASCII lowercasing of one character; models `str::to_lowercase` on the
ASCII subset (the only place the source relies on it). -/
def asciiLowerChar (c : Char) : Char :=
  if 'A' ≤ c ∧ c ≤ 'Z' then Char.ofNat (c.toNat + 32) else c

/-- ASCII model of Rust `str::to_lowercase`. -/
def asciiLower (s : Chars) : Chars := s.map asciiLowerChar

/-- ASCII whitespace test; models `char::is_whitespace` on the ASCII subset. -/
def isAsciiWs (c : Char) : Bool := c = ' ' ∨ c = '\t' ∨ c = '\n' ∨ c = '\r'

/-- ASCII model of Rust `str::trim`. -/
def asciiTrim (s : Chars) : Chars :=
  ((s.dropWhile isAsciiWs).reverse.dropWhile isAsciiWs).reverse

/-- Is `c` a decimal digit? -/
def isDigitCh (c : Char) : Bool := '0' ≤ c ∧ c ≤ '9'

/-- Value of a non-empty all-digit string (helper for the integer `FromStr`
models below). -/
def digitsVal (s : Chars) : Option Nat :=
  if s ≠ [] ∧ s.all isDigitCh then
    some (s.foldl (fun a c => 10 * a + (c.toNat - 48)) 0)
  else none

/-- Rust `u64::from_str`: optional `+` sign, digits, range check. -/
def parseU64 (s : Chars) : Option Nat :=
  let body := match s with
    | '+' :: t => digitsVal t
    | t => digitsVal t
  match body with
  | some n => if n < 2 ^ 64 then some n else none
  | none => none

/-- Rust `u32::from_str`: optional `+` sign, digits, range check. -/
def parseU32 (s : Chars) : Option Nat :=
  let body := match s with
    | '+' :: t => digitsVal t
    | t => digitsVal t
  match body with
  | some n => if n < 2 ^ 32 then some n else none
  | none => none

/-- Rust `i8::from_str`: optional sign, digits, range check into `[-128, 127]`. -/
def parseI8 (s : Chars) : Option Int :=
  match s with
  | '-' :: t =>
    match digitsVal t with
    | some n => if n ≤ 128 then some (-(n : Int)) else none
    | none => none
  | '+' :: t =>
    match digitsVal t with
    | some n => if n ≤ 127 then some (n : Int) else none
    | none => none
  | t =>
    match digitsVal t with
    | some n => if n ≤ 127 then some (n : Int) else none
    | none => none

/-! ## UTF-8 and percent-coding (the `urlencoding` crate), byte level -/

/-- Is `b` a UTF-8 continuation byte (`0x80..=0xBF`)? -/
def contB (b : Nat) : Bool := 128 ≤ b && b ≤ 191

/-- Lower bound of the second byte of a UTF-8 sequence led by `b1`
(RFC 3629 table: `E0` and `F0` restrict it to exclude overlong forms). -/
def b2lo (b1 : Nat) : Nat := if b1 = 224 then 160 else if b1 = 240 then 144 else 128

/-- Upper bound of the second byte of a UTF-8 sequence led by `b1`
(`ED` excludes surrogates, `F4` caps at `U+10FFFF`). -/
def b2hi (b1 : Nat) : Nat := if b1 = 237 then 159 else if b1 = 244 then 143 else 191

/-- RFC 3629 UTF-8 validity of a byte list; models the
`String::from_utf8` check done by `urlencoding::decode`. -/
def utf8Check : Str → Bool
  | [] => true
  | b1 :: t1 =>
    if b1 < 128 then utf8Check t1
    else
      match t1 with
      | [] => false
      | b2 :: t2 =>
        if 194 ≤ b1 && b1 ≤ 223 then contB b2 && utf8Check t2
        else
          match t2 with
          | [] => false
          | b3 :: t3 =>
            if 224 ≤ b1 && b1 ≤ 239 then
              (b2lo b1 ≤ b2 && b2 ≤ b2hi b1) && contB b3 && utf8Check t3
            else
              match t3 with
              | [] => false
              | b4 :: t4 =>
                if 240 ≤ b1 && b1 ≤ 244 then
                  (b2lo b1 ≤ b2 && b2 ≤ b2hi b1) && contB b3 && contB b4 && utf8Check t4
                else false

/-- Hex digit value, both cases accepted (the crate's `from_hex_digit`). -/
def hexVal (b : Nat) : Option Nat :=
  if 48 ≤ b ∧ b ≤ 57 then some (b - 48)
  else if 65 ≤ b ∧ b ≤ 70 then some (b - 55)
  else if 97 ≤ b ∧ b ≤ 102 then some (b - 87)
  else none

/-- Percent-decoding pass of `urlencoding::decode`: `%` followed by two hex
digits becomes one byte; a `%` not followed by two hex digits is passed
through and scanning resumes at the next byte. -/
def percentDecode : Str → Str
  | [] => []
  | b :: t =>
    if b = 37 then
      match t with
      | a :: c :: t2 =>
        match hexVal a, hexVal c with
        | some x, some y => (16 * x + y) :: percentDecode t2
        | _, _ => 37 :: percentDecode (a :: c :: t2)
      | t' => 37 :: percentDecode t'
    else b :: percentDecode t

/-- The crate call `urlencoding::decode` on UTF-8 bytes: percent-decode, then the result
must be valid UTF-8 (else `Err(FromUtf8Error)`). -/
def urlDecode (s : Str) : Option Str :=
  let d := percentDecode s
  if utf8Check d then some d else none

/-- The crate's unreserved set: `A-Z a-z 0-9 - . _ ~` stay as-is. -/
def isUnreserved (b : Nat) : Bool :=
  (48 ≤ b && b ≤ 57) || (65 ≤ b && b ≤ 90) || (97 ≤ b && b ≤ 122) ||
  b = 45 || b = 46 || b = 95 || b = 126

/-- Uppercase hex digit of a nibble. -/
def hexDigitU (n : Nat) : Nat := if n < 10 then 48 + n else 55 + n

/-- The crate call `urlencoding::encode` of one byte. -/
def encByte (b : Nat) : Str :=
  if isUnreserved b then [b] else [37, hexDigitU (b / 16), hexDigitU (b % 16)]

/-- The crate call `urlencoding::encode` on UTF-8 bytes. -/
def urlEncode : Str → Str
  | [] => []
  | b :: t => encByte b ++ urlEncode t

/-- Rust `str::replace(old, new)` for one-byte ASCII `old`/`new`. -/
def replaceByte (old new : Nat) : Str → Str
  | [] => []
  | b :: t => (if b = old then new else b) :: replaceByte old new t

/-! ## `src/search.rs`: query-string codec (byte level) -/

/-- Rust `SearchParam(String, Vec<String>)`. -/
structure SearchParam where
  name : Str
  values : List Str
deriving DecidableEq

/-- Rust `SearchParams(Vec<SearchParam>)`. -/
structure SearchParams where
  params : List SearchParam
deriving DecidableEq

/-- The `decode(x) -> Ok(y) | Err(_) -> x.clone()` pattern of
`SearchParam::parse`. -/
def decodeOr (x : Str) : Str :=
  match urlDecode x with
  | some y => y
  | none => x

/-- Decode-or-keep then `.replace('+', " ")`, applied to both the name and
the value in `SearchParam::parse` (`'+'` is byte 43, `' '` is byte 32). -/
def normPart (x : Str) : Str := replaceByte 43 32 (decodeOr x)

/-- Rust `SearchParam::parse`: split on `=`, demand exactly two segments, then
percent-decode both (keeping the raw text if decoding fails) and replace
`+` by space; the value becomes a singleton list. -/
def SearchParam.parse (s : Str) : Except Unit SearchParam :=
  match split1 61 s with
  | [n, v] => .ok ⟨normPart n, [normPart v]⟩
  | _ => .error ()

/-- The repeated-key merge of `SearchParams::parse`: append `v` to the value
list of the first entry named `k`. -/
def updateFirst (k : Str) (v : Str) : List SearchParam → List SearchParam
  | [] => []
  | p :: t => if p.name = k then ⟨p.name, p.values ++ [v]⟩ :: t else p :: updateFirst k v t

/-- One loop iteration of `SearchParams::parse`: merge into an existing
entry of the same name (appending `parsed.value()[0]`), else push. -/
def mergePush (acc : List SearchParam) (q : SearchParam) : List SearchParam :=
  if acc.any (fun x => x.name = q.name) then updateFirst q.name (q.values.headD []) acc
  else acc ++ [q]

/-- The `while let Some(param) = raws.next()` loop of `SearchParams::parse`;
a segment that fails `SearchParam::parse` aborts the whole parse. -/
def parseLoop : List SearchParam → List Str → Except Unit (List SearchParam)
  | acc, [] => .ok acc
  | acc, s :: rest =>
    match SearchParam.parse s with
    | .error e => .error e
    | .ok q => parseLoop (mergePush acc q) rest

/-- Rust `SearchParams::parse`: strip a leading `?` (byte 63), split on `&`
(byte 38), parse each segment, merging repeated keys. -/
def SearchParams.parse (s : Str) : Except Unit SearchParams :=
  let s' := if s.head? = some 63 then s.tail else s
  match parseLoop [] (split1 38 s') with
  | .ok l => .ok ⟨l⟩
  | .error e => .error e

/-- Rust `SearchParam::to_string`: fold `"enc(name)=enc(value)&"` over the value
list, then `res.remove(res.len()-1)` drops the trailing `&` (the source
would panic on an empty value list; `dropLast` is only reached with the
non-empty lists `SearchParams::parse` produces). -/
def SearchParam.to_string (p : SearchParam) : Str :=
  (p.values.foldl (fun acc v => acc ++ urlEncode p.name ++ 61 :: urlEncode v ++ [38]) []).dropLast

/-- Rust `SearchParams::to_string`: empty set formats to the empty string; else
`?` followed by every param's string each followed by `&`, with trailing
`&`s trimmed. -/
def SearchParams.to_string (sp : SearchParams) : Str :=
  if sp.params.length = 0 then []
  else
    dropTrailing (fun b => b = 38)
      (63 :: sp.params.foldl (fun acc p => acc ++ p.to_string ++ [38]) [])

/-! ## `src/mime.rs` -/

/-- The `Mime` enum: a closed type family with a `Custom` escape. -/
inductive Mime where
  | custom (type_ : Chars) (subtype : Chars) (parameters : Option (Chars × Chars))
  | text (subtype : Chars) (parameters : Option (Chars × Chars))
  | application (subtype : Chars) (parameters : Option (Chars × Chars))
  | audio (subtype : Chars) (parameters : Option (Chars × Chars))
  | image (subtype : Chars) (parameters : Option (Chars × Chars))
  | message (subtype : Chars) (parameters : Option (Chars × Chars))
  | model (subtype : Chars) (parameters : Option (Chars × Chars))
  | video (subtype : Chars) (parameters : Option (Chars × Chars))
deriving DecidableEq

/-- Rust `Mime::new`: classify the type token case-sensitively against the closed
set, anything else becomes `Custom`. -/
def Mime.new (type_ : Chars) (subtype : Chars) (parameters : Option (Chars × Chars)) : Mime :=
  if type_ = cs "text" then .text subtype parameters
  else if type_ = cs "application" then .application subtype parameters
  else if type_ = cs "audio" then .audio subtype parameters
  else if type_ = cs "image" then .image subtype parameters
  else if type_ = cs "message" then .message subtype parameters
  else if type_ = cs "model" then .model subtype parameters
  else if type_ = cs "video" then .video subtype parameters
  else .custom type_ subtype parameters

/-- Outcome of `Mime::parse`: `Result<Mime, String>`, plus the reachable
`unwrap` panic when a `;`-parameter contains no `=`. -/
inductive MimeParse where
  | ok (m : Mime)
  | err (msg : Chars)
  | panicked
deriving DecidableEq

/-- Rust `Mime::parse`: split on `/` (second segment required), then if the
subtype contains `;`, split off exactly one `key=value` parameter; the
`param_split.next().unwrap()` for the value panics when the parameter
segment has no `=`. -/
def Mime.parse (raw : Chars) : MimeParse :=
  match split1 '/' raw with
  | [_] => .err (cs "Invalid MIME type")
  | type_ :: sub0 :: _ =>
    if sub0.any (fun c => c = ';') then
      match split1 ';' sub0 with
      | sub :: param :: _ =>
        match split1 '=' param with
        | _ :: [] => .panicked
        | key :: value :: _ => .ok (Mime.new type_ sub (some (key, value)))
        | [] => .panicked
      | _ => .err (cs "Invalid MIME type")
    else .ok (Mime.new type_ sub0 none)
  | [] => .err (cs "Invalid MIME type")

/-- Rust `Mime::to_string`: `type/subtype` with the optional `;key=value`. -/
def Mime.to_string (m : Mime) : Chars :=
  let tsp : Chars × Chars × Option (Chars × Chars) :=
    match m with
    | .custom type_ subtype parameters => (type_, subtype, parameters)
    | .text subtype parameters => (cs "text", subtype, parameters)
    | .application subtype parameters => (cs "application", subtype, parameters)
    | .audio subtype parameters => (cs "audio", subtype, parameters)
    | .image subtype parameters => (cs "image", subtype, parameters)
    | .message subtype parameters => (cs "message", subtype, parameters)
    | .model subtype parameters => (cs "model", subtype, parameters)
    | .video subtype parameters => (cs "video", subtype, parameters)
  tsp.1 ++ cs "/" ++ tsp.2.1 ++
    (match tsp.2.2 with
     | some (key, value) => cs ";" ++ key ++ cs "=" ++ value
     | none => [])

/-! ## `src/response.rs` data types needed by `src/accept.rs` -/

/-- Rust `BodyEncoding`: the codecs a response body can be compressed with. -/
inductive BodyEncoding where
  | gzip
  | deflate
  | brotli
deriving DecidableEq

/-- Rust `BodyEncoding::to_string`. -/
def BodyEncoding.to_string : BodyEncoding → Chars
  | .gzip => cs "gzip"
  | .deflate => cs "deflate"
  | .brotli => cs "br"

/-! ## `src/accept.rs`: Accept-Encoding negotiation -/

/-- The `Encoding` enum: recognized Accept-Encoding tokens plus wildcard. -/
inductive Encoding where
  | gzip
  | deflate
  | br
  | all
deriving DecidableEq

/-- Rust `Encoding::from_str`: strict, unrecognized tokens are an error. -/
def Encoding.from_str (s : Chars) : Except Unit Encoding :=
  if s = cs "gzip" then .ok .gzip
  else if s = cs "deflate" then .ok .deflate
  else if s = cs "br" then .ok .br
  else if s = cs "*" then .ok .all
  else .error ()

/-- The conversion `impl From<BodyEncoding> for Encoding`. -/
def Encoding.from_body : BodyEncoding → Encoding
  | .gzip => .gzip
  | .deflate => .deflate
  | .brotli => .br

/-- Rust `Encoding::to_string`. -/
def Encoding.to_string : Encoding → Chars
  | .gzip => cs "gzip"
  | .deflate => cs "deflate"
  | .br => cs "br"
  | .all => cs "*"

/-- Rust `AcceptEncoding`: one parsed entry, an encoding with optional `i8`
quality weight. -/
structure AcceptEncoding where
  encoding : Encoding
  q : Option Int
deriving DecidableEq

/-- Rust `AcceptEncoding::accept`: wildcard accepts everything, otherwise the
entry's token must equal the candidate exactly; the quality weight is not
consulted. -/
def AcceptEncoding.accept (a : AcceptEncoding) (e : BodyEncoding) : Bool :=
  match a.encoding, e with
  | .all, _ => true
  | .gzip, .gzip => true
  | .deflate, .deflate => true
  | .br, .brotli => true
  | _, _ => false

/-- Rust `AcceptEncoding::from_str`: split on `;`, parse the trimmed first
segment strictly as an `Encoding`; the quality is the `i8` after the `=` of
the next segment if all of that succeeds, else `None` (never an error). -/
def AcceptEncoding.from_str (s : Chars) : Except Unit AcceptEncoding :=
  match split1 ';' s with
  | [] => .error ()
  | e0 :: rest =>
    match Encoding.from_str (asciiTrim e0) with
    | .error u => .error u
    | .ok enc =>
      let q : Option Int :=
        match rest with
        | [] => none
        | q0 :: _ =>
          match split1 '=' q0 with
          | _ :: qv :: _ => parseI8 qv
          | _ => none
      .ok ⟨enc, q⟩

/-- Rust `AcceptEncoding::to_string`. -/
def AcceptEncoding.to_string (a : AcceptEncoding) : Chars :=
  a.encoding.to_string ++
    (match a.q with
     | some q => cs ";q=" ++ cs (toString q)
     | none => [])

/-- Rust `AcceptEncodings`: the parsed `Accept-Encoding` preference list. -/
structure AcceptEncodings where
  encodings : List AcceptEncoding
deriving DecidableEq

/-- Rust `AcceptEncodings::accept`: linear scan with early return — true iff some
entry accepts the candidate. -/
def AcceptEncodings.accept (l : AcceptEncodings) (e : BodyEncoding) : Bool :=
  l.encodings.any (fun a => a.accept e)

/-- The `while let Some(encoding) = split.next()` loop of
`AcceptEncodings::from_str`: trim each comma-separated entry, skip empties,
parse the rest strictly (an error aborts the whole parse). -/
def AcceptEncodings.parse_entries : List Chars → Except Unit (List AcceptEncoding)
  | [] => .ok []
  | e :: t =>
    let e' := asciiTrim e
    if e' = [] then AcceptEncodings.parse_entries t
    else
      match AcceptEncoding.from_str e' with
      | .error u => .error u
      | .ok a =>
        match AcceptEncodings.parse_entries t with
        | .ok rest => .ok (a :: rest)
        | .error u => .error u

/-- Rust `AcceptEncodings::from_str`: split on `,` and parse every non-empty
trimmed entry. -/
def AcceptEncodings.from_str (s : Chars) : Except Unit AcceptEncodings :=
  match AcceptEncodings.parse_entries (split1 ',' s) with
  | .ok l => .ok ⟨l⟩
  | .error u => .error u

/-- Rust `AcceptEncodings::to_string`: append `"entry, "` for every entry, then
two `pop()`s drop the trailing separator. -/
def AcceptEncodings.to_string (l : AcceptEncodings) : Chars :=
  ((l.encodings.foldl (fun acc a => acc ++ a.to_string ++ cs ", ") []).dropLast).dropLast

/-! ## UTF-8 at character level (for `urlencoding` inside `src/cookie.rs`) -/

/-- UTF-8 bytes of one character. -/
def charUtf8Bytes (c : Char) : Str :=
  let n := c.toNat
  if n < 128 then [n]
  else if n < 2048 then [192 + n / 64, 128 + n % 64]
  else if n < 65536 then [224 + n / 4096, 128 + n / 64 % 64, 128 + n % 64]
  else [240 + n / 262144, 128 + n / 4096 % 64, 128 + n / 64 % 64, 128 + n % 64]

/-- UTF-8 bytes of a character string. -/
def charsToBytes : Chars → Str
  | [] => []
  | c :: t => charUtf8Bytes c ++ charsToBytes t

/-- UTF-8 decoding of a byte list into characters; `none` on invalid input
(same acceptance as `utf8Check`). -/
def utf8ToChars : Str → Option Chars
  | [] => some []
  | b1 :: t1 =>
    if b1 < 128 then (utf8ToChars t1).map (fun r => Char.ofNat b1 :: r)
    else
      match t1 with
      | [] => none
      | b2 :: t2 =>
        if 194 ≤ b1 && b1 ≤ 223 then
          if contB b2 then
            (utf8ToChars t2).map (fun r => Char.ofNat ((b1 - 192) * 64 + (b2 - 128)) :: r)
          else none
        else
          match t2 with
          | [] => none
          | b3 :: t3 =>
            if 224 ≤ b1 && b1 ≤ 239 then
              if (b2lo b1 ≤ b2 && b2 ≤ b2hi b1) && contB b3 then
                (utf8ToChars t3).map
                  (fun r => Char.ofNat ((b1 - 224) * 4096 + (b2 - 128) * 64 + (b3 - 128)) :: r)
              else none
            else
              match t3 with
              | [] => none
              | b4 :: t4 =>
                if 240 ≤ b1 && b1 ≤ 244 then
                  if (b2lo b1 ≤ b2 && b2 ≤ b2hi b1) && contB b3 && contB b4 then
                    (utf8ToChars t4).map
                      (fun r =>
                        Char.ofNat
                          ((b1 - 240) * 262144 + (b2 - 128) * 4096 +
                            (b3 - 128) * 64 + (b4 - 128)) :: r)
                  else none
                else none

/-- The crate call `urlencoding::decode` lifted to character strings: encode to UTF-8
bytes, percent-decode, and re-validate/decode. -/
def charUrlDecode (s : Chars) : Option Chars :=
  utf8ToChars (percentDecode (charsToBytes s))

/-! ## `src/cookie.rs` -/

/-- Rust `RequestCookie(String, String)`: a name and a percent-decoded value. -/
structure RequestCookie where
  name : Chars
  value : Chars
deriving DecidableEq

/-- The error enum `cookie::ParseError`. -/
inductive CookieParseError where
  | invalidCookiePair
  | invalidCookieName
  | invalidCookieValue
deriving DecidableEq

/-- Rust `raw.split("; ")` (two-character pattern), scanning left to right. -/
def splitSemiSp : Chars → List Chars
  | [] => [[]]
  | ';' :: ' ' :: t => [] :: splitSemiSp t
  | c :: t =>
    match splitSemiSp t with
    | [] => [[c]]
    | h :: tl => (c :: h) :: tl

/-- The `while let Some(cookie_raw) = split.next()` loop of
`RequestCookie::parse`: each segment must split on `=` into exactly two
parts, the name must be non-empty, and the value must percent-decode. -/
def RequestCookie.parse_segments : List Chars → Except CookieParseError (List RequestCookie)
  | [] => .ok []
  | seg :: t =>
    match split1 '=' seg with
    | [name, value] =>
      if name = [] then .error .invalidCookieName
      else
        match charUrlDecode value with
        | none => .error .invalidCookieValue
        | some v =>
          match RequestCookie.parse_segments t with
          | .ok rest => .ok (⟨name, v⟩ :: rest)
          | .error e => .error e
    | _ => .error .invalidCookiePair

/-- Rust `RequestCookie::parse`: split the raw `Cookie` value on `"; "` and parse
every segment (all-or-nothing). -/
def RequestCookie.parse (raw : Chars) : Except CookieParseError (List RequestCookie) :=
  RequestCookie.parse_segments (splitSemiSp raw)

/-- Rust `ResponseCookie`: the `Set-Cookie` builder's data. -/
structure ResponseCookie where
  name : Chars
  value : Chars
  max_age : Option Nat
  expires : Option Chars
  path : Option Chars
  domain : Option Chars
  secure : Bool
  http_only : Bool
deriving DecidableEq

/-- Rust `ResponseCookie::to_string`: `name=value;` then each present attribute
in fixed order, each `;`-terminated, with the final separator popped. -/
def ResponseCookie.to_string (c : ResponseCookie) : Chars :=
  (c.name ++ cs "=" ++ c.value ++ cs ";" ++
    (match c.max_age with
     | some n => cs "Max-Age=" ++ cs (toString n) ++ cs ";"
     | none => []) ++
    (match c.expires with
     | some e => cs "Expires=" ++ e ++ cs ";"
     | none => []) ++
    (match c.path with
     | some p => cs "Path=" ++ p ++ cs ";"
     | none => []) ++
    (match c.domain with
     | some d => cs "Domain=" ++ d ++ cs ";"
     | none => []) ++
    (if c.secure then cs "Secure;" else []) ++
    (if c.http_only then cs "HttpOnly;" else [])).dropLast

/-! ## `src/common.rs` -/

/-- The `Method` enum with its opaque fallback. -/
inductive Method where
  | get
  | post
  | put
  | delete
  | head
  | patch
  | options
  | connect
  | trace
  | unknown (raw : Chars)
deriving DecidableEq

/-- Rust `Method::to_string`. -/
def Method.to_string : Method → Chars
  | .get => cs "GET"
  | .post => cs "POST"
  | .put => cs "PUT"
  | .delete => cs "DELETE"
  | .head => cs "HEAD"
  | .patch => cs "PATCH"
  | .options => cs "OPTIONS"
  | .connect => cs "CONNECT"
  | .trace => cs "TRACE"
  | .unknown raw => raw

/-- The `Version` enum with its opaque fallback. -/
inductive Version where
  | http10
  | http11
  | http20
  | unknown (raw : Chars)
deriving DecidableEq

/-- Rust `Version::to_string`. -/
def Version.to_string : Version → Chars
  | .http10 => cs "HTTP/1.0"
  | .http11 => cs "HTTP/1.1"
  | .http20 => cs "HTTP/2.0"
  | .unknown raw => raw

/-- The `Connection` enum with its opaque fallback. -/
inductive Connection where
  | keepAlive
  | close
  | upgradeConn
  | unknown (raw : Chars)
deriving DecidableEq

/-- Rust `Connection::to_string`. -/
def Connection.to_string : Connection → Chars
  | .keepAlive => cs "keep-alive"
  | .close => cs "close"
  | .upgradeConn => cs "upgrade"
  | .unknown raw => raw

/-- The `Dnt` tri-state. -/
inductive Dnt where
  | prefersAllowTrack
  | prefersNoTrack
  | notSpecified
deriving DecidableEq

/-- The `Cache` directive enum (`Cache-Control` / `Pragma`). -/
inductive Cache where
  | maxAge (n : Nat)
  | noCache
  | mustRevalidate
  | proxyRevalidate
  | noStore
  | privateD
  | publicD
  | mustUnderstand
  | noTransform
  | immutable
  | staleWhileRevalidate (n : Nat)
  | staleIfError (n : Nat)
  | maxStale (n : Nat)
  | minFresh (n : Nat)
  | onlyIfCached
deriving DecidableEq

/-- Rust `Cache::to_string`. -/
def Cache.to_string : Cache → Chars
  | .maxAge n => cs "max-age=" ++ cs (toString n)
  | .noCache => cs "no-cache"
  | .mustRevalidate => cs "must-revalidate"
  | .proxyRevalidate => cs "proxy-revalidate"
  | .noStore => cs "no-store"
  | .privateD => cs "private"
  | .publicD => cs "public"
  | .mustUnderstand => cs "must-understand"
  | .noTransform => cs "no-transform"
  | .immutable => cs "immutable"
  | .staleWhileRevalidate n => cs "stale-while-revalidate=" ++ cs (toString n)
  | .staleIfError n => cs "stale-if-error=" ++ cs (toString n)
  | .maxStale n => cs "max-stale=" ++ cs (toString n)
  | .minFresh n => cs "min-fresh=" ++ cs (toString n)
  | .onlyIfCached => cs "only-if-cached"

/-- Rust `Cache::parse_once`: if the directive contains `=`, `split_at` at the
position `find('=')` returns — so the value side still starts with the `=`
character — then match the key against the integer-valued directives and
parse the value as `u32`; otherwise match the bare tokens.  Unrecognized or
unparsable directives yield `None`. -/
def Cache.parse_once (raw : Chars) : Option Cache :=
  if raw.any (fun c => c = '=') then
    let key := raw.takeWhile (fun c => ¬ c = '=')
    let value := raw.drop key.length
    if key = cs "max-age" then (parseU32 value).map Cache.maxAge
    else if key = cs "stale-while-revalidate" then (parseU32 value).map Cache.staleWhileRevalidate
    else if key = cs "stale-if-error" then (parseU32 value).map Cache.staleIfError
    else if key = cs "max-stale" then (parseU32 value).map Cache.maxStale
    else if key = cs "min-fresh" then (parseU32 value).map Cache.minFresh
    else none
  else
    if raw = cs "no-cache" then some .noCache
    else if raw = cs "must-revalidate" then some .mustRevalidate
    else if raw = cs "proxy-revalidate" then some .proxyRevalidate
    else if raw = cs "no-store" then some .noStore
    else if raw = cs "private" then some .privateD
    else if raw = cs "public" then some .publicD
    else if raw = cs "must-understand" then some .mustUnderstand
    else if raw = cs "no-transform" then some .noTransform
    else if raw = cs "immutable" then some .immutable
    else if raw = cs "only-if-cached" then some .onlyIfCached
    else none

/-- The explicit space-trimming loops of `Cache::parse` (they strip only
`' '`, not general whitespace). -/
def trimSpaces (s : Chars) : Chars :=
  ((s.dropWhile (fun c => c = ' ')).reverse.dropWhile (fun c => c = ' ')).reverse

/-- Rust `Cache::parse`: split on `,`, trim spaces, `parse_once` each directive
and silently drop the `None`s. -/
def Cache.parse (raw : Chars) : List Cache :=
  (split1 ',' raw).filterMap (fun seg => Cache.parse_once (trimSpaces seg))

/-- Rust `Cache::format`: fold `"directive, "` and trim trailing spaces/commas. -/
def Cache.format (l : List Cache) : Chars :=
  dropTrailing (fun c => c = ' ' || c = ',')
    (l.foldl (fun acc c => acc ++ c.to_string ++ cs ", ") [])

/-- The `Header` enum: the closed recognized set plus the `Unknown` escape. -/
inductive Header where
  | connection (c : Connection)
  | contentLength (n : Nat)
  | contentType (m : Mime)
  | host (v : Chars)
  | userAgent (v : Chars)
  | accept (v : Chars)
  | acceptEncoding (l : AcceptEncodings)
  | acceptLanguage (v : Chars)
  | acceptCharset (v : Chars)
  | acceptDatetime (v : Chars)
  | acceptRanges (v : Chars)
  | cacheControl (l : List Cache)
  | cookie (l : List RequestCookie)
  | date (v : Chars)
  | pragma (c : Cache)
  | trailer (v : Chars)
  | transferEncoding (v : Chars)
  | upgradeHdr (v : Chars)
  | proxyConnection (c : Connection)
  | server (v : Chars)
  | origin (v : Chars)
  | dnt (d : Dnt)
  | setCookie (c : ResponseCookie)
  | location (v : Chars)
  | contentEncoding (l : List BodyEncoding)
  | unknown (name : Chars) (value : Chars)
deriving DecidableEq

/-- Rust `Header::to_string`: the wire line of each variant.  Note the `DNT` arm
emits no trailing `\r\n` and swaps the `0`/`1` mapping relative to
`Dnt::to_string`, the `Cookie` arm leaves a trailing `"; "` before the
`\r\n`, and the `Content-Encoding` arm pops two characters before appending
`\r\n` (eating into the header name when the list is empty). -/
def Header.to_string : Header → Chars
  | .connection c => cs "Connection: " ++ c.to_string ++ cs "\r\n"
  | .contentLength n => cs "Content-Length: " ++ cs (toString n) ++ cs "\r\n"
  | .contentType m => cs "Content-Type: " ++ m.to_string ++ cs "\r\n"
  | .host v => cs "Host: " ++ v ++ cs "\r\n"
  | .userAgent v => cs "User-Agent: " ++ v ++ cs "\r\n"
  | .accept v => cs "Accept: " ++ v ++ cs "\r\n"
  | .acceptEncoding l => cs "Accept-Encoding: " ++ l.to_string ++ cs "\r\n"
  | .acceptLanguage v => cs "Accept-Language: " ++ v ++ cs "\r\n"
  | .acceptCharset v => cs "Accept-Charset: " ++ v ++ cs "\r\n"
  | .acceptDatetime v => cs "Accept-Datetime: " ++ v ++ cs "\r\n"
  | .acceptRanges v => cs "Accept-Ranges: " ++ v ++ cs "\r\n"
  | .cacheControl l => cs "Cache-Control: " ++ Cache.format l ++ cs "\r\n"
  | .cookie l =>
    (cs "Cookie: " ++ l.foldl (fun acc c => acc ++ c.name ++ cs "=" ++ c.value ++ cs "; ") []) ++
      cs "\r\n"
  | .date v => cs "Date: " ++ v ++ cs "\r\n"
  | .pragma c => cs "Pragma: " ++ c.to_string ++ cs "\r\n"
  | .trailer v => cs "Trailer: " ++ v ++ cs "\r\n"
  | .transferEncoding v => cs "Transfer-Encoding: " ++ v ++ cs "\r\n"
  | .upgradeHdr v => cs "Upgrade: " ++ v ++ cs "\r\n"
  | .proxyConnection c => cs "Proxy-Connection: " ++ c.to_string ++ cs "\r\n"
  | .server v => cs "Server: " ++ v ++ cs "\r\n"
  | .origin v => cs "Origin: " ++ v ++ cs "\r\n"
  | .dnt d =>
    cs "DNT: " ++
      (match d with
       | .prefersAllowTrack => cs "0"
       | .prefersNoTrack => cs "1"
       | .notSpecified => cs "null")
  | .setCookie c => cs "Set-Cookie: " ++ c.to_string ++ cs "\r\n"
  | .location v => cs "Location: " ++ v ++ cs "\r\n"
  | .contentEncoding l =>
    ((cs "Content-Encoding: " ++
        l.foldl (fun acc e => acc ++ e.to_string ++ cs ", ") []).dropLast).dropLast ++
      cs "\r\n"
  | .unknown name value => name ++ cs ": " ++ value ++ cs "\r\n"

/-- Rust `Header::name`: the canonical header name of each variant (the stored
name for `Unknown`). -/
def Header.name : Header → Chars
  | .connection _ => cs "Connection"
  | .contentLength _ => cs "Content-Length"
  | .contentType _ => cs "Content-Type"
  | .host _ => cs "Host"
  | .userAgent _ => cs "User-Agent"
  | .accept _ => cs "Accept"
  | .acceptEncoding _ => cs "Accept-Encoding"
  | .acceptLanguage _ => cs "Accept-Language"
  | .acceptCharset _ => cs "Accept-Charset"
  | .acceptDatetime _ => cs "Accept-Datetime"
  | .acceptRanges _ => cs "Accept-Ranges"
  | .cacheControl _ => cs "Cache-Control"
  | .cookie _ => cs "Cookie"
  | .date _ => cs "Date"
  | .pragma _ => cs "Pragma"
  | .trailer _ => cs "Trailer"
  | .transferEncoding _ => cs "Transfer-Encoding"
  | .upgradeHdr _ => cs "Upgrade"
  | .proxyConnection _ => cs "Proxy-Connection"
  | .server _ => cs "Server"
  | .origin _ => cs "Origin"
  | .dnt _ => cs "DNT"
  | .setCookie _ => cs "Set-Cookie"
  | .location _ => cs "Location"
  | .contentEncoding _ => cs "Content-Encoding"
  | .unknown name _ => name

/-- The `Status` enum. -/
inductive Status where
  | switchingProtocols
  | ok
  | created
  | accepted
  | noContent
  | resetContent
  | partialContent
  | multipleChoices
  | movedPermanently
  | movedTemporarily
  | notModified
  | badRequest
  | unauthorized
  | forbidden
  | notFound
  | methodNotAllowed
  | notAcceptable
  | proxyAuthenticationRequired
  | requestTimeout
  | conflict
  | gone
  | lengthRequired
  | preconditionFailed
  | requestEntityTooLarge
  | requestUriTooLong
  | unsupportedMediaType
  | requestedRangeNotSatisfiable
  | expectationFailed
  | internalServerError
  | notImplemented
  | badGateway
  | serviceUnavailable
  | gatewayTimeout
  | httpVersionNotSupported
  | unknown (code : Nat)
  | custom (code : Nat) (reason : Chars)
deriving DecidableEq

/-- Rust `Status::to_string` (the `SwitchingProtocols` arm renders a full status
line, a quirk kept from the source). -/
def Status.to_string : Status → Chars
  | .switchingProtocols => cs "HTTP/1.1 101 Switching Protocols\r\n"
  | .ok => cs "200 OK"
  | .created => cs "201 Created"
  | .accepted => cs "202 Accepted"
  | .noContent => cs "204 No Content"
  | .resetContent => cs "205 Reset Content"
  | .partialContent => cs "206 Partial Content"
  | .multipleChoices => cs "300 Multiple Choices"
  | .movedPermanently => cs "301 Moved Permanently"
  | .movedTemporarily => cs "302 Moved Temporarily"
  | .notModified => cs "304 Not Modified"
  | .badRequest => cs "400 Bad Request"
  | .unauthorized => cs "401 Unauthorized"
  | .forbidden => cs "403 Forbidden"
  | .notFound => cs "404 Not Found"
  | .methodNotAllowed => cs "405 Method Not Allowed"
  | .notAcceptable => cs "406 Not Acceptable"
  | .proxyAuthenticationRequired => cs "407 Proxy Authentication Required"
  | .requestTimeout => cs "408 Request Timeout"
  | .conflict => cs "409 Conflict"
  | .gone => cs "410 Gone"
  | .lengthRequired => cs "411 Length Required"
  | .preconditionFailed => cs "412 Precondition Failed"
  | .requestEntityTooLarge => cs "413 Request Entity Too Large"
  | .requestUriTooLong => cs "414 Request-URI Too Long"
  | .unsupportedMediaType => cs "415 Unsupported Media Type"
  | .requestedRangeNotSatisfiable => cs "416 Requested Range Not Satisfiable"
  | .expectationFailed => cs "417 Expectation Failed"
  | .internalServerError => cs "500 Internal Server Error"
  | .notImplemented => cs "501 Not Implemented"
  | .badGateway => cs "502 Bad Gateway"
  | .serviceUnavailable => cs "503 Service Unavailable"
  | .gatewayTimeout => cs "504 Gateway Timeout"
  | .httpVersionNotSupported => cs "505 HTTP Version Not Supported"
  | .unknown code => cs (toString code) ++ cs " Unknown"
  | .custom code reason => cs (toString code) ++ cs " " ++ reason

/-- The `Uri` struct. -/
structure Uri where
  scheme : Chars
  host : Chars
  path : Chars
  search : SearchParams
deriving DecidableEq

/-! ## `src/request.rs`: the `Request` struct -/

/-- The `Request` struct.  `stream` models the `TcpStream` as its write log
(the list of buffers written so far). -/
structure Request where
  method : Method
  version : Version
  uri : Uri
  headers : List Header
  body : Chars
  raw : Chars
  stream : List (List Nat)
  responded : Bool
deriving DecidableEq

/-- Rust `Request::get_header`: first header whose name matches case-insensitively. -/
def Request.get_header (r : Request) (name : Chars) : Option Header :=
  r.headers.find? (fun h => asciiLower h.name = asciiLower name)

/-! ## `src/response.rs` -/

/-- Rust `ResponseBody`: `Text`, `Binary` or `None`. -/
inductive ResponseBody where
  | text (t : Chars)
  | binary (v : List Nat)
  | none
deriving DecidableEq

/-- Rust `CompressionLevel(u32)`. -/
structure CompressionLevel where
  level : Nat
deriving DecidableEq

/-- Rust `CompressionLevel::fast()`. -/
def CompressionLevel.fast : CompressionLevel := ⟨1⟩

/-- The `Response` struct. -/
structure Response where
  status : Status
  headers : List Header
  body : ResponseBody
  encoding : Option BodyEncoding × Option CompressionLevel
deriving DecidableEq

/-- The external compression codecs (`flate2::GzEncoder`,
`flate2::DeflateEncoder`, `brotli::CompressorReader`) abstracted: given the
codec, the resolved level and the input bytes, return the compressed bytes,
or `none` for the `Err(..)` failure path. -/
abbrev Compressor := BodyEncoding → CompressionLevel → List Nat → Option (List Nat)

/-- The `response.rs` helper `push_str`: pushes each `char` of the string as a
`u8`, i.e. the code point truncated to its low 8 bits. -/
def push_str (s : Chars) : List Nat :=
  s.map (fun c => c.toNat % 256)

/-- Byte length of a Rust string (`String::len`), used for the computed
`Content-Length`. -/
def strByteLen (s : Chars) : Nat :=
  (s.map (fun c => (charUtf8Bytes c).length)).sum

/-- Lexicographic comparison of two character strings; agrees with Rust's
`String::cmp` (UTF-8 byte order coincides with code-point order). -/
def cmpChars : Chars → Chars → Ordering
  | [], [] => .eq
  | [], _ :: _ => .lt
  | _ :: _, [] => .gt
  | a :: as_, b :: bs =>
    if a < b then .lt else if b < a then .gt else cmpChars as_ bs

/-- Stable insertion used to model `Vec::sort_by`: an element is placed
after all elements it does not compare `Less` than. -/
def insertByCmp {α : Type} (cmp : α → α → Ordering) (x : α) : List α → List α
  | [] => [x]
  | y :: t =>
    match cmp x y with
    | .lt => x :: y :: t
    | _ => y :: insertByCmp cmp x t

/-- Stable sort modelling `headers.sort_by(|a, b| a.name().cmp(&b.name()))`. -/
def sortByCmp {α : Type} (cmp : α → α → Ordering) (l : List α) : List α :=
  l.foldl (fun acc x => insertByCmp cmp x acc) []

/-- Is the header a `Content-Length` header (the `matches!`-style check in
`to_vector`)? -/
def isContentLengthHdr : Header → Bool
  | .contentLength _ => true
  | _ => false

/-- The `support_encoding` computation of `Response::to_vector`: with a
requested codec, look up the request's `Accept-Encoding` header
(case-insensitively) and ask the negotiator; anything missing means
unsupported. -/
def Response.support_encoding (res : Response) (req : Request) : Bool :=
  match res.encoding.1 with
  | some enc =>
    match req.get_header (cs "accept-encoding") with
    | some (Header.acceptEncoding aes) => aes.accept enc
    | some _ => false
    | Option.none => false
  | Option.none => false

/-- The final header list of `Response::to_vector`: clone, append a computed
`Content-Length` when absent and the body is `Text`/`Binary`, append
`Content-Encoding` when the negotiation succeeded, then sort by canonical
name. -/
def Response.headers_out (res : Response) (req : Request) : List Header :=
  let hs := res.headers
  let hs :=
    if hs.any isContentLengthHdr then hs
    else
      match res.body with
      | .text t => hs ++ [.contentLength (strByteLen t)]
      | .binary v => hs ++ [.contentLength v.length]
      | .none => hs
  let hs :=
    match res.encoding.1 with
    | some enc => if res.support_encoding req then hs ++ [.contentEncoding [enc]] else hs
    | Option.none => hs
  sortByCmp (fun a b => cmpChars a.name b.name) hs

/-- The local `should_print_body` of `Response::to_vector`: no body for `HEAD`
requests, the `NoContent` status, or any `Unknown`/`Custom` status whose
code is 204. -/
def should_print_body (m : Method) (st : Status) : Bool :=
  match m, st with
  | .head, _ => false
  | _, .noContent => false
  | _, .unknown s => !(s == 204)
  | _, .custom s _ => !(s == 204)
  | _, _ => true

/-- The bytes `Response::to_vector` pushes before the body: status line,
sorted header lines, and the blank-line separator. -/
def Response.head_bytes (res : Response) (req : Request) : List Nat :=
  push_str (req.version.to_string ++ cs " " ++ res.status.to_string ++ cs "\r\n") ++
    (res.headers_out req).foldl (fun acc h => acc ++ push_str h.to_string) [] ++
    push_str (cs "\r\n")

/-- The raw body bytes before compression (`Text` chars truncated to `u8`,
`Binary` as-is). -/
def Response.body_bytes (res : Response) : List Nat :=
  match res.body with
  | .text t => t.map (fun c => c.toNat % 256)
  | .binary v => v
  | .none => []

/-- Rust `Response::to_vector`: head bytes, then — when the body is printed — the
body bytes, compressed with the requested codec at the requested (or
default "fast") level when negotiation succeeded; a codec failure keeps the
uncompressed bytes. -/
def Response.to_vector (compress : Compressor) (res : Response) (req : Request) : List Nat :=
  res.head_bytes req ++
    (if should_print_body req.method res.status then
      (if res.support_encoding req then
        match res.encoding with
        | (some enc, lvl) =>
          match compress enc (lvl.getD CompressionLevel.fast) res.body_bytes with
          | some d => d
          | Option.none => res.body_bytes
        | (Option.none, _) => res.body_bytes
      else res.body_bytes)
    else [])

/-! ## `src/request.rs`: `respond` and header-block ingestion -/

/-- Rust `Request::respond`: error out if already responded, else serialize via
`to_vector`, write to the stream (modelled as appending to the write log,
returning the byte count) and set the one-shot flag. -/
def Request.respond (compress : Compressor) (r : Request) (res : Response) :
    Except Chars Nat × Request :=
  if r.responded then (.error (cs "Request already responded"), r)
  else
    let bytes := Response.to_vector compress res r
    (.ok bytes.length, { r with stream := r.stream ++ [bytes], responded := true })

/-- First split of Rust `line.split(": ")`: the part before the first
`": "` occurrence and the remainder, or `none` when the separator is
absent. -/
def splitColonSp : Chars → Option (Chars × Chars)
  | [] => Option.none
  | c :: t =>
    if c = ':' ∧ t.head? = some ' ' then some ([], t.tail)
    else (splitColonSp t).map (fun p => (c :: p.1, p.2))

/-- The value the header loop stores: the second `next()` of
`line.split(": ")`, i.e. the wire value up to its own next `": "`
occurrence (the full value when it contains none). -/
def firstColonSpSegment (s : Chars) : Chars :=
  match splitColonSp s with
  | some p => p.1
  | Option.none => s

/-- Outcome of ingesting one header line in `handle_connection`: a header,
an early-returned `IoError`, or a reachable `unwrap` panic. -/
inductive HeaderLineResult where
  | ok (h : Header)
  | ioErr (msg : Chars)
  | panicked
deriving DecidableEq

/-- The `Connection`-classification used for the `connection` and
`proxy-connection` headers: match the lowercased value, keep the original
in the `Unknown` fallback. -/
def parseConnection (value : Chars) : Connection :=
  if asciiLower value = cs "keep-alive" then .keepAlive
  else if asciiLower value = cs "close" then .close
  else if asciiLower value = cs "upgrade" then .upgradeConn
  else .unknown value

/-- One iteration of the header loop in `handle_connection`: split the line
on `": "` (the `unwrap` of the second `next()` panics when the separator is
missing), lowercase the name, and dispatch on the closed name set; the
`value.parse().unwrap()` for `content-length` panics on a non-numeric
value, while the `content-type`, `accept-encoding`, `cookie`, `pragma` and
`dnt` failures early-return `Err` values. -/
def parseHeaderLine (line : Chars) : HeaderLineResult :=
  match splitColonSp line with
  | Option.none => .panicked
  | some (rawName, rest) =>
    let name := asciiLower rawName
    let value :=
      match splitColonSp rest with
      | some (v, _) => v
      | Option.none => rest
    if name = cs "connection" then .ok (.connection (parseConnection value))
    else if name = cs "content-length" then
      match parseU64 value with
      | some n => .ok (.contentLength n)
      | Option.none => .panicked
    else if name = cs "content-type" then
      match Mime.parse value with
      | .ok m => .ok (.contentType m)
      | .err _ => .ioErr (cs "Invalid content type: " ++ value)
      | .panicked => .panicked
    else if name = cs "host" then .ok (.host value)
    else if name = cs "user-agent" then .ok (.userAgent value)
    else if name = cs "accept" then .ok (.accept value)
    else if name = cs "accept-encoding" then
      match AcceptEncodings.from_str value with
      | .ok aes => .ok (.acceptEncoding aes)
      | .error _ => .ioErr (cs "Invalid accept encoding: " ++ value)
    else if name = cs "accept-language" then .ok (.acceptLanguage value)
    else if name = cs "accept-charset" then .ok (.acceptCharset value)
    else if name = cs "accept-datetime" then .ok (.acceptDatetime value)
    else if name = cs "accept-ranges" then .ok (.acceptRanges value)
    else if name = cs "cache-control" then .ok (.cacheControl (Cache.parse value))
    else if name = cs "cookie" then
      match RequestCookie.parse value with
      | .ok l => .ok (.cookie l)
      | .error _ => .ioErr (cs "Invalid cookie")
    else if name = cs "date" then .ok (.date value)
    else if name = cs "pragma" then
      match Cache.parse_once value with
      | some c => .ok (.pragma c)
      | Option.none => .ioErr (cs "Invalid pragma")
    else if name = cs "trailer" then .ok (.trailer value)
    else if name = cs "transfer-encoding" then .ok (.transferEncoding value)
    else if name = cs "upgrade" then .ok (.upgradeHdr value)
    else if name = cs "proxy-connection" then .ok (.proxyConnection (parseConnection value))
    else if name = cs "server" then .ok (.server value)
    else if name = cs "origin" then .ok (.origin value)
    else if name = cs "dnt" then
      if asciiLower value = cs "0" then .ok (.dnt .prefersAllowTrack)
      else if asciiLower value = cs "1" then .ok (.dnt .prefersNoTrack)
      else if asciiLower value = cs "null" then .ok (.dnt .notSpecified)
      else .ioErr (cs "Invalid DNT value")
    else .ok (.unknown name value)

/-- Outcome of the whole header-block loop. -/
inductive HeaderBlockResult where
  | ok (hs : List Header)
  | ioErr (msg : Chars)
  | panicked
deriving DecidableEq

/-- The `for header in split` loop of `handle_connection` over the lines of
the header block: push each parsed header, propagating early `Err` returns
and panics. -/
def parseHeaderBlock : List Chars → HeaderBlockResult
  | [] => .ok []
  | line :: t =>
    match parseHeaderLine line with
    | .ok h =>
      match parseHeaderBlock t with
      | .ok hs => .ok (h :: hs)
      | .ioErr m => .ioErr m
      | .panicked => .panicked
    | .ioErr m => .ioErr m
    | .panicked => .panicked

/-! ## Concrete fixtures used by the witnesses -/

/-- A concrete fresh request (GET / HTTP/1.1 with no headers). -/
def witnessRequest : Request :=
  { method := .get
    version := .http11
    uri := { scheme := cs "http", host := cs "x", path := cs "/", search := ⟨[]⟩ }
    headers := []
    body := []
    raw := []
    stream := []
    responded := false }

/-- A concrete HEAD request (same shape, method HEAD). -/
def witnessHeadRequest : Request :=
  { witnessRequest with method := .head }

/-- A concrete response with a text body and no encoding directive. -/
def witnessResponse : Response :=
  { status := .ok
    headers := []
    body := .text (cs "hello")
    encoding := (none, none) }

/-- The identity compressor: always succeeds, returns the input bytes. -/
def witnessCompressor : Compressor := fun _ _ d => some d

/-- A header name that the closed dispatch set of `handle_connection`
recognizes (all lowercased, as the dispatch happens after lowercasing). -/
def recognizedHeaderNames : List Chars :=
  [cs "connection", cs "content-length", cs "content-type", cs "host",
   cs "user-agent", cs "accept", cs "accept-encoding", cs "accept-language",
   cs "accept-charset", cs "accept-datetime", cs "accept-ranges",
   cs "cache-control", cs "cookie", cs "date", cs "pragma", cs "trailer",
   cs "transfer-encoding", cs "upgrade", cs "proxy-connection", cs "server",
   cs "origin", cs "dnt"]

/-- Is the header the `DNT` variant? -/
def isDntHdr : Header → Bool
  | .dnt _ => true
  | _ => false

/-! ## Proof infrastructure for the query-string round trip -/

/-- RFC 3629 UTF-8 validity as an inductive predicate; `utf8Check` is its
boolean decision procedure (`utf8Check_complete` / `utf8Check_sound`). -/
inductive U8 : Str → Prop where
  | nil : U8 []
  | ascii {b : Nat} {t : Str} : b < 128 → U8 t → U8 (b :: t)
  | two {b1 b2 : Nat} {t : Str} : 194 ≤ b1 → b1 ≤ 223 → 128 ≤ b2 → b2 ≤ 191 →
      U8 t → U8 (b1 :: b2 :: t)
  | three {b1 b2 b3 : Nat} {t : Str} : 224 ≤ b1 → b1 ≤ 239 →
      b2lo b1 ≤ b2 → b2 ≤ b2hi b1 → 128 ≤ b3 → b3 ≤ 191 → U8 t →
      U8 (b1 :: b2 :: b3 :: t)
  | four {b1 b2 b3 b4 : Nat} {t : Str} : 240 ≤ b1 → b1 ≤ 244 →
      b2lo b1 ≤ b2 → b2 ≤ b2hi b1 → 128 ≤ b3 → b3 ≤ 191 → 128 ≤ b4 → b4 ≤ 191 →
      U8 t → U8 (b1 :: b2 :: b3 :: b4 :: t)

/-- A string produced by `SearchParams::parse`: valid UTF-8 (it is a Rust
`String`) and free of `+` (byte 43), which `SearchParam::parse` always
replaces by spaces. -/
def StrOk (x : Str) : Prop := utf8Check x = true ∧ 43 ∉ x

/-- An entry produced by `SearchParams::parse`: well-formed name and a
non-empty list of well-formed values. -/
def ParamOk (p : SearchParam) : Prop :=
  StrOk p.name ∧ p.values ≠ [] ∧ ∀ v ∈ p.values, StrOk v

/-- The invariant of the `SearchParams::parse` accumulator: pairwise
distinct names and well-formed entries. -/
def ParamsOk (l : List SearchParam) : Prop :=
  (l.map SearchParam.name).Pairwise (fun a b => a ≠ b) ∧ ∀ p ∈ l, ParamOk p

/-- The formatted `enc(k)=enc(v)` segment of one key/value pair. -/
def segOf (k v : Str) : Str := urlEncode k ++ 61 :: urlEncode v

/-- All formatted segments of one parameter. -/
def segsOfParam (p : SearchParam) : List Str := p.values.map (segOf p.name)

/-- Concrete query-string bytes `"a=1&a=2&b=%41"` for the round-trip
witness. -/
def witnessQuery : Str := [97, 61, 49, 38, 97, 61, 50, 38, 98, 61, 37, 52, 49]

/-- The parsed form of `witnessQuery`: `a -> ["1","2"]`, `b -> ["A"]`. -/
def witnessParams : SearchParams := ⟨[⟨[97], [[49], [50]]⟩, ⟨[98], [[65]]⟩]⟩

deriving instance DecidableEq for Except

/-! ## Helper lemmas -/

theorem accept_entry_iff (a : AcceptEncoding) (e : BodyEncoding) :
    a.accept e = true ↔ (a.encoding = Encoding.all ∨ a.encoding = Encoding.from_body e) := by
  rcases a with ⟨enc, q⟩
  cases enc <;> cases e <;> simp [AcceptEncoding.accept, Encoding.from_body]

/-! ## Claims -/

/-- C1.  The spec demands that a header line lacking the `": "` separator,
or a `Content-Length` value failing its numeric parse, surface as a
reportable error and never panic.  The header loop of `handle_connection`
instead panics in both situations: the `split.next().unwrap()` for the
value unwraps `None` on `"Malformed"`, and
`Header::ContentLength(value.parse().unwrap())` unwraps `Err` on
`"Content-Length: abc"`.  This theorem evaluates the embedded loop at both
failing inputs. -/
theorem c1_header_parse_panics_on_malformed_input :
    parseHeaderBlock [cs "Malformed"] = .panicked ∧
    parseHeaderBlock [cs "Content-Length: abc"] = .panicked ∧
    parseHeaderBlock [cs "Content-Type: nomime"] =
      .ioErr (cs "Invalid content type: nomime") := by
  refine ⟨by decide, by decide, by decide⟩

/-- C2.  A `Request` whose `responded` flag is false: the first `respond`
serializes the response, appends exactly one write to the stream, returns
`Ok(size)` and flips the flag to true; a second `respond` on the resulting
request returns the "Request already responded" error and leaves the
request (in particular its write log) unchanged, so the flag transitions
exactly once from false to true. -/
theorem c2_respond_exactly_once (compress : Compressor) (r : Request)
    (res1 res2 : Response) (h : r.responded = false) :
    (Request.respond compress r res1).1 =
      Except.ok (Response.to_vector compress res1 r).length ∧
    (Request.respond compress r res1).2.responded = true ∧
    (Request.respond compress r res1).2.stream =
      r.stream ++ [Response.to_vector compress res1 r] ∧
    Request.respond compress (Request.respond compress r res1).2 res2 =
      (Except.error (cs "Request already responded"), (Request.respond compress r res1).2) := by
  simp [Request.respond, h]

/-- C4.  `accepts(list, candidate)` is true exactly when some entry's token
is the wildcard or equals the candidate encoding (so quality weights are
never consulted: the criterion only mentions the tokens); moreover
`accepts(parse("gzip, br;q=1"), Brotli)` is true,
`accepts(parse("gzip"), Brotli)` is false, and `accepts(parse("*"), e)` is
true for every body encoding `e`. -/
theorem c4_accept_encoding_semantics :
    (∀ (l : List AcceptEncoding) (e : BodyEncoding),
      AcceptEncodings.accept ⟨l⟩ e = true ↔
        ∃ a ∈ l, a.encoding = Encoding.all ∨ a.encoding = Encoding.from_body e) ∧
    AcceptEncodings.from_str (cs "gzip, br;q=1") =
      .ok ⟨[⟨.gzip, none⟩, ⟨.br, some 1⟩]⟩ ∧
    AcceptEncodings.accept ⟨[⟨.gzip, none⟩, ⟨.br, some 1⟩]⟩ .brotli = true ∧
    AcceptEncodings.from_str (cs "gzip") = .ok ⟨[⟨.gzip, none⟩]⟩ ∧
    AcceptEncodings.accept ⟨[⟨.gzip, none⟩]⟩ .brotli = false ∧
    AcceptEncodings.from_str (cs "*") = .ok ⟨[⟨.all, none⟩]⟩ ∧
    (∀ e : BodyEncoding, AcceptEncodings.accept ⟨[⟨.all, none⟩]⟩ e = true) := by
  refine ⟨?_, by decide, by decide, by decide, by decide, by decide, ?_⟩
  · intro l e
    simp only [AcceptEncodings.accept, List.any_eq_true]
    constructor
    · rintro ⟨a, ha, hacc⟩
      exact ⟨a, ha, (accept_entry_iff a e).1 hacc⟩
    · rintro ⟨a, ha, hs⟩
      exact ⟨a, ha, (accept_entry_iff a e).2 hs⟩
  · intro e; cases e <;> decide

/-- C2 witness: a concrete GET request with a fresh flag, responded to
twice with an empty 200 response under the identity compressor. -/
theorem c2_respond_exactly_once_witness :
    (witnessRequest.responded = false) ∧
    ((Request.respond witnessCompressor witnessRequest witnessResponse).1 =
        Except.ok (Response.to_vector witnessCompressor witnessResponse witnessRequest).length ∧
      (Request.respond witnessCompressor witnessRequest witnessResponse).2.responded = true ∧
      (Request.respond witnessCompressor witnessRequest witnessResponse).2.stream =
        witnessRequest.stream ++
          [Response.to_vector witnessCompressor witnessResponse witnessRequest] ∧
      Request.respond witnessCompressor
          (Request.respond witnessCompressor witnessRequest witnessResponse).2 witnessResponse =
        (Except.error (cs "Request already responded"),
          (Request.respond witnessCompressor witnessRequest witnessResponse).2)) :=
  ⟨rfl, c2_respond_exactly_once witnessCompressor witnessRequest witnessResponse
    witnessResponse rfl⟩

/-- C6.  The spec says `key=integer` directives from the fixed set parse
with their integer value, in particular `"max-age=60"` yields
`MaxAge(60)`.  But `Cache::parse_once` splits with
`split_at(raw.find('='))`, so the value side keeps the leading `=` and
`"=60".parse::<u32>()` fails; the directive is silently dropped.  The code
thereby rejects exactly the strings its own `Cache::to_string` produces. -/
theorem c6_cache_integer_directives_dropped :
    Cache.to_string (Cache.maxAge 60) = cs "max-age=60" ∧
    Cache.parse_once (cs "max-age=60") = none ∧
    Cache.parse (cs "max-age=60") = [] ∧
    Cache.parse (cs "max-age=60, no-cache") = [Cache.noCache] ∧
    Cache.format [Cache.maxAge 60] = cs "max-age=60" := by
  refine ⟨by decide, by decide, by decide, by decide, by decide⟩

/-- C7.  The spec's round trip `format → parse` for request cookies fails
for every non-empty cookie list: the `Cookie` arm of `Header::to_string`
appends `"name=value; "` for each cookie and never trims the trailing
separator, so the emitted header value ends in `"; "`, and
`RequestCookie::parse` then sees a trailing empty segment whose `=`-split
has one part, failing with `InvalidCookiePair`. -/
theorem c7_cookie_format_parse_roundtrip_fails :
    Header.to_string (.cookie [⟨cs "a", cs "b"⟩]) = cs "Cookie: a=b; \r\n" ∧
    RequestCookie.parse (cs "a=b; ") = .error .invalidCookiePair ∧
    RequestCookie.parse (cs "a=b") = .ok [⟨cs "a", cs "b"⟩] := by
  refine ⟨by decide, by decide, by decide⟩

/-- C10.  The spec says `Mime::parse` is total (value or error) and never
aborts on malformed input.  It does fail cleanly when the `/` is missing
and recognizes at most one parameter, but the
`param_split.next().unwrap()` for the parameter value panics whenever the
`;`-segment contains no `=`, e.g. on `"text/html;charset"`. -/
theorem c10_mime_parse_panics_on_paramless_semicolon :
    Mime.parse (cs "texthtml") = .err (cs "Invalid MIME type") ∧
    Mime.parse (cs "text/html;charset") = .panicked ∧
    Mime.parse (cs "text/html") = .ok (.text (cs "html") none) ∧
    Mime.parse (cs "text/html;a=b;c=d") = .ok (.text (cs "html") (some (cs "a", cs "b"))) := by
  refine ⟨by decide, by decide, by decide, by decide⟩

/-! ## Helper lemmas (continued) -/

theorem splitColonSp_append (s : Chars) (hs : splitColonSp s = none) (t : Chars) :
    splitColonSp (s ++ ':' :: ' ' :: t) = some (s, t) := by
  induction s with
  | nil => simp [splitColonSp]
  | cons c s' ih =>
    rw [splitColonSp] at hs
    by_cases hc : c = ':' ∧ s'.head? = some ' '
    · rw [if_pos hc] at hs; exact absurd hs (by simp)
    · rw [if_neg hc] at hs
      have hs' : splitColonSp s' = none := by
        cases hval : splitColonSp s' with
        | none => rfl
        | some p => rw [hval] at hs; exact absurd hs (by simp)
      have hcond : ¬(c = ':' ∧ (s' ++ ':' :: ' ' :: t).head? = some ' ') := by
        rintro ⟨rfl, hh⟩
        cases s' with
        | nil => simp at hh
        | cons d s'' =>
          exact hc ⟨rfl, by simpa using hh⟩
      rw [List.cons_append, splitColonSp, if_neg hcond, ih hs']
      rfl

theorem foldl_append_absorb {α β : Type} (g : β → List α) :
    ∀ (l : List β) (a : List α),
      l.foldl (fun acc x => acc ++ g x) a = a ++ (l.map g).flatten
  | [], a => by simp
  | x :: t, a => by
    simp only [List.foldl_cons, List.map_cons, List.flatten_cons]
    rw [foldl_append_absorb g t (a ++ g x)]
    simp [List.append_assoc]

theorem join_map_ends_sep {α β : Type} (g : β → List α) (sep : List α)
    (hg : ∀ x, ∃ f, g x = f ++ sep) :
    ∀ (l : List β), l ≠ [] → ∃ front, (l.map g).flatten = front ++ sep
  | [x], _ => by
    obtain ⟨f, hf⟩ := hg x
    exact ⟨f, by simp [hf]⟩
  | x :: y :: t, _ => by
    obtain ⟨front, hfront⟩ := join_map_ends_sep g sep hg (y :: t) (by simp)
    obtain ⟨f, hf⟩ := hg x
    refine ⟨g x ++ front, ?_⟩
    simp only [List.map_cons, List.flatten_cons] at hfront ⊢
    rw [hfront, List.append_assoc]

/-! ## Claims (continued) -/

/-- C3.  For a `HEAD` request, the explicit `NoContent` status, or any
`Unknown`/`Custom` status carrying code 204, `Response::to_vector` emits
exactly the status line, headers and blank-line separator: no body bytes
follow, whatever the declared body is. -/
theorem c3_head_or_204_omits_body (compress : Compressor) (res : Response) (req : Request)
    (h : req.method = Method.head ∨ res.status = Status.noContent ∨
      res.status = Status.unknown 204 ∨ ∃ r, res.status = Status.custom 204 r) :
    Response.to_vector compress res req = Response.head_bytes res req := by
  have hb : should_print_body req.method res.status = false := by
    rcases h with h | h | h | ⟨r, h⟩
    · rw [h]; cases res.status <;> rfl
    · rw [h]; cases req.method <;> rfl
    · rw [h]; cases req.method <;> rfl
    · rw [h]; cases req.method <;> rfl
  simp [Response.to_vector, hb]

/-- C3 witness: a concrete HEAD request and a 200 response with the
non-empty text body "hello"; the serialized bytes stop at the blank line. -/
theorem c3_head_or_204_omits_body_witness :
    witnessHeadRequest.method = Method.head ∧
    Response.to_vector witnessCompressor witnessResponse witnessHeadRequest =
      Response.head_bytes witnessResponse witnessHeadRequest :=
  ⟨rfl, c3_head_or_204_omits_body witnessCompressor witnessResponse witnessHeadRequest
    (Or.inl rfl)⟩

/-- C8 counterexample: neither the name nor the value passes through
verbatim — the line `"X-Token: abc"` is ingested as
`Unknown("x-token", "abc")` with the name lowercased, and the line
`"X-Token: a: b"` is ingested as `Unknown("x-token", "a")` with the value
truncated at its own `": "`. -/
theorem c8_counterexample_name_lowercased :
    parseHeaderLine (cs "X-Token: abc") = .ok (.unknown (cs "x-token") (cs "abc")) ∧
    cs "x-token" ≠ cs "X-Token" ∧
    parseHeaderLine (cs "X-Token: a: b") = .ok (.unknown (cs "x-token") (cs "a")) ∧
    cs "a" ≠ cs "a: b" := by
  refine ⟨by decide, by decide, by decide, by decide⟩

/-- C8 (amended).  Every header line whose lowercased name is not in the
recognized set is ingested as `Unknown` and never as an error, for every
value: the stored name is the lowercased wire name, and the stored value is
the wire value truncated at its own next `": "` occurrence (the full value
when it contains none); emission renders `name: value\r\n` with the stored
name and value. -/
theorem c8_unknown_header_passthrough (rawName value : Chars)
    (hn : splitColonSp rawName = none)
    (hu : asciiLower rawName ∉ recognizedHeaderNames) :
    parseHeaderLine (rawName ++ ':' :: ' ' :: value) =
      .ok (.unknown (asciiLower rawName) (firstColonSpSegment value)) ∧
    Header.to_string (.unknown (asciiLower rawName) (firstColonSpSegment value)) =
      asciiLower rawName ++ cs ": " ++ firstColonSpSegment value ++ cs "\r\n" := by
  constructor
  · have h1 := splitColonSp_append rawName hn value
    simp only [recognizedHeaderNames, List.mem_cons, List.not_mem_nil, or_false,
      not_or] at hu
    obtain ⟨u1, u2, u3, u4, u5, u6, u7, u8, u9, u10, u11, u12, u13, u14, u15,
      u16, u17, u18, u19, u20, u21, u22⟩ := hu
    cases hv : splitColonSp value with
    | none =>
      simp only [parseHeaderLine, firstColonSpSegment, h1, hv, u1, u2, u3, u4, u5,
        u6, u7, u8, u9, u10, u11, u12, u13, u14, u15, u16, u17, u18, u19, u20,
        u21, u22, if_false]
    | some p =>
      obtain ⟨v1, r1⟩ := p
      simp only [parseHeaderLine, firstColonSpSegment, h1, hv, u1, u2, u3, u4, u5,
        u6, u7, u8, u9, u10, u11, u12, u13, u14, u15, u16, u17, u18, u19, u20,
        u21, u22, if_false]
  · rfl

/-- C8 witness: the concrete unrecognized header line `"X-Token: a: b"`,
whose value contains a second `": "`. -/
theorem c8_unknown_header_passthrough_witness :
    splitColonSp (cs "X-Token") = none ∧
    asciiLower (cs "X-Token") ∉ recognizedHeaderNames ∧
    (parseHeaderLine (cs "X-Token" ++ ':' :: ' ' :: cs "a: b") =
        .ok (.unknown (asciiLower (cs "X-Token")) (firstColonSpSegment (cs "a: b"))) ∧
      Header.to_string
          (.unknown (asciiLower (cs "X-Token")) (firstColonSpSegment (cs "a: b"))) =
        asciiLower (cs "X-Token") ++ cs ": " ++ firstColonSpSegment (cs "a: b") ++
          cs "\r\n") :=
  ⟨by decide, by decide,
    c8_unknown_header_passthrough (cs "X-Token") (cs "a: b") (by decide) (by decide)⟩

/-- C9 counterexample: two variants fail the `Name: value` CRLF line shape.
The `DNT` arm of `Header::to_string` renders `"DNT: null"` with no
terminating CRLF, and the `Content-Encoding` arm with an empty encoding
list renders `"Content-Encoding\r\n"` — its two `pop()`s eat the `": "`
separator — so the emitted line does not even start with
`"Content-Encoding: "`. -/
theorem c9_counterexample_dnt_no_crlf :
    Header.to_string (.dnt .notSpecified) = cs "DNT: null" ∧
    ¬ List.IsSuffix (cs "\r\n") (Header.to_string (.dnt .notSpecified)) ∧
    Header.to_string (.contentEncoding []) = cs "Content-Encoding\r\n" ∧
    ¬ List.IsPrefix (cs "Content-Encoding: ") (Header.to_string (.contentEncoding [])) := by
  refine ⟨by decide, by decide, by decide, by decide⟩

/-- C9 (amended).  Every `Header` variant other than `DNT` (which omits the
trailing CRLF) and `Content-Encoding` with an empty encoding list (whose
two `pop()`s eat into the header name) renders as the canonical
`Name: value\r\n` wire line, with the name fixed per variant. -/
theorem c9_header_line_shape (h : Header)
    (h1 : isDntHdr h = false) (h2 : h ≠ Header.contentEncoding []) :
    ∃ v : Chars, Header.to_string h = Header.name h ++ cs ": " ++ v ++ cs "\r\n" := by
  cases h with
  | dnt d => simp [isDntHdr] at h1
  | contentEncoding l =>
    cases l with
    | nil => exact absurd rfl h2
    | cons e es =>
      obtain ⟨front, hfront⟩ :=
        join_map_ends_sep (fun x : BodyEncoding => x.to_string ++ cs ", ") (cs ", ")
          (fun x => ⟨x.to_string, rfl⟩) (e :: es) (by simp)
      refine ⟨front, ?_⟩
      show ((cs "Content-Encoding: " ++
          (e :: es).foldl (fun acc x => acc ++ x.to_string ++ cs ", ") []).dropLast).dropLast ++
          cs "\r\n" = _
      have hfold : (e :: es).foldl (fun acc x => acc ++ x.to_string ++ cs ", ") [] =
          front ++ cs ", " := by
        have := foldl_append_absorb (fun x : BodyEncoding => x.to_string ++ cs ", ") (e :: es) []
        simp only [List.append_assoc] at this ⊢
        rw [this, List.nil_append, hfront]
      rw [hfold]
      have hsep : cs ", " = [','] ++ [' '] := by decide
      have hrw : cs "Content-Encoding: " ++ (front ++ cs ", ") =
          ((cs "Content-Encoding: " ++ front) ++ [',']) ++ [' '] := by
        rw [hsep]; simp [List.append_assoc]
      rw [hrw, List.dropLast_concat, List.dropLast_concat]
      have hlit : cs "Content-Encoding: " = cs "Content-Encoding" ++ cs ": " := by decide
      rw [List.append_assoc, hlit, List.append_assoc]
      rfl
  | connection c => exact ⟨c.to_string, rfl⟩
  | contentLength n => exact ⟨cs (toString n), rfl⟩
  | contentType m => exact ⟨m.to_string, rfl⟩
  | host v => exact ⟨v, rfl⟩
  | userAgent v => exact ⟨v, rfl⟩
  | accept v => exact ⟨v, rfl⟩
  | acceptEncoding l => exact ⟨l.to_string, rfl⟩
  | acceptLanguage v => exact ⟨v, rfl⟩
  | acceptCharset v => exact ⟨v, rfl⟩
  | acceptDatetime v => exact ⟨v, rfl⟩
  | acceptRanges v => exact ⟨v, rfl⟩
  | cacheControl l => exact ⟨Cache.format l, rfl⟩
  | cookie l =>
    exact ⟨l.foldl (fun acc (c : RequestCookie) => acc ++ c.name ++ cs "=" ++ c.value ++ cs "; ")
      [], rfl⟩
  | date v => exact ⟨v, rfl⟩
  | pragma c => exact ⟨c.to_string, rfl⟩
  | trailer v => exact ⟨v, rfl⟩
  | transferEncoding v => exact ⟨v, rfl⟩
  | upgradeHdr v => exact ⟨v, rfl⟩
  | proxyConnection c => exact ⟨c.to_string, rfl⟩
  | server v => exact ⟨v, rfl⟩
  | origin v => exact ⟨v, rfl⟩
  | setCookie c => exact ⟨c.to_string, rfl⟩
  | location v => exact ⟨v, rfl⟩
  | unknown n v => exact ⟨v, rfl⟩

/-- C9 witness: the `Host` header renders as a canonical CRLF-terminated
line. -/
theorem c9_header_line_shape_witness :
    isDntHdr (Header.host (cs "x")) = false ∧
    Header.host (cs "x") ≠ Header.contentEncoding [] ∧
    ∃ v : Chars, Header.to_string (Header.host (cs "x")) =
      Header.name (Header.host (cs "x")) ++ cs ": " ++ v ++ cs "\r\n" :=
  ⟨by decide, by decide, c9_header_line_shape (Header.host (cs "x")) (by decide) (by decide)⟩

theorem utf8Check_complete {s : Str} (h : U8 s) : utf8Check s = true := by
  induction h with
  | nil => rfl
  | ascii hb _ ih =>
    rw [utf8Check.eq_def]; dsimp only
    rw [if_pos hb]; exact ih
  | two hb1 hb2 hc1 hc2 _ ih =>
    rw [utf8Check.eq_def]; dsimp only
    rw [if_neg (by omega), if_pos (by simp; omega)]
    simp [contB, ih]; omega
  | three hb1 hb2 hlo hhi hc1 hc2 _ ih =>
    rw [utf8Check.eq_def]; dsimp only
    rw [if_neg (by omega), if_neg (by simp; omega), if_pos (by simp; omega)]
    simp [contB, ih]
    refine ⟨⟨hlo, hhi⟩, by omega⟩
  | four hb1 hb2 hlo hhi hc1 hc2 hd1 hd2 _ ih =>
    rw [utf8Check.eq_def]; dsimp only
    rw [if_neg (by omega), if_neg (by simp; omega), if_neg (by simp; omega),
      if_pos (by simp; omega)]
    simp [contB, ih]
    refine ⟨⟨⟨hlo, hhi⟩, by omega⟩, by omega⟩

theorem utf8Check_sound_aux : ∀ (n : Nat) (s : Str), s.length ≤ n →
    utf8Check s = true → U8 s := by
  intro n
  induction n with
  | zero =>
    intro s hlen _
    have hs : s = [] := List.length_eq_zero.mp (Nat.le_zero.mp hlen)
    exact hs ▸ U8.nil
  | succ n ih =>
    intro s hlen hchk
    match s with
    | [] => exact U8.nil
    | b1 :: t1 =>
      rw [utf8Check.eq_def] at hchk; dsimp only at hchk
      by_cases h1 : b1 < 128
      · rw [if_pos h1] at hchk
        exact U8.ascii h1 (ih t1 (by simp at hlen; omega) hchk)
      · rw [if_neg h1] at hchk
        match t1, hchk with
        | b2 :: t2, hchk =>
          dsimp only at hchk
          by_cases h2 : (194 ≤ b1 && b1 ≤ 223) = true
          · rw [if_pos h2] at hchk
            simp only [contB, Bool.and_eq_true, decide_eq_true_eq] at hchk h2
            exact U8.two h2.1 h2.2 hchk.1.1 hchk.1.2
              (ih t2 (by simp at hlen; omega) hchk.2)
          · rw [if_neg h2] at hchk
            match t2, hchk with
            | b3 :: t3, hchk =>
              dsimp only at hchk
              by_cases h3 : (224 ≤ b1 && b1 ≤ 239) = true
              · rw [if_pos h3] at hchk
                simp only [contB, Bool.and_eq_true, decide_eq_true_eq] at hchk h3
                exact U8.three h3.1 h3.2 hchk.1.1.1 hchk.1.1.2 hchk.1.2.1 hchk.1.2.2
                  (ih t3 (by simp at hlen; omega) hchk.2)
              · rw [if_neg h3] at hchk
                match t3, hchk with
                | b4 :: t4, hchk =>
                  dsimp only at hchk
                  by_cases h4 : (240 ≤ b1 && b1 ≤ 244) = true
                  · rw [if_pos h4] at hchk
                    simp only [contB, Bool.and_eq_true, decide_eq_true_eq] at hchk h4
                    exact U8.four h4.1 h4.2 hchk.1.1.1.1 hchk.1.1.1.2 hchk.1.1.2.1
                      hchk.1.1.2.2 hchk.1.2.1 hchk.1.2.2
                      (ih t4 (by simp at hlen; omega) hchk.2)
                  · rw [if_neg h4] at hchk
                    simp at hchk

theorem utf8Check_sound {s : Str} (h : utf8Check s = true) : U8 s :=
  utf8Check_sound_aux s.length s le_rfl h

theorem u8_b2_ge {b1 b2 : Nat} (h : b2lo b1 ≤ b2) : 128 ≤ b2 :=
  le_trans (by unfold b2lo; split_ifs <;> omega) h

theorem u8_b2_le {b1 b2 : Nat} (h : b2 ≤ b2hi b1) : b2 ≤ 191 :=
  le_trans h (by unfold b2hi; split_ifs <;> omega)

theorem u8_bytes_lt {s : Str} (h : U8 s) : ∀ b ∈ s, b < 256 := by
  induction h with
  | nil => intro b hb; simp at hb
  | @ascii b t hb ht ih =>
    intro x hx
    rcases List.mem_cons.mp hx with rfl | hx
    · omega
    · exact ih x hx
  | @two b1 b2 t hb1 hb2 hc1 hc2 ht ih =>
    intro x hx
    rcases List.mem_cons.mp hx with rfl | hx
    · omega
    rcases List.mem_cons.mp hx with rfl | hx
    · omega
    · exact ih x hx
  | @three b1 b2 b3 t hb1 hb2 hlo hhi hc1 hc2 ht ih =>
    have h2 := u8_b2_le hhi
    intro x hx
    rcases List.mem_cons.mp hx with rfl | hx
    · omega
    rcases List.mem_cons.mp hx with rfl | hx
    · omega
    rcases List.mem_cons.mp hx with rfl | hx
    · omega
    · exact ih x hx
  | @four b1 b2 b3 b4 t hb1 hb2 hlo hhi hc1 hc2 hd1 hd2 ht ih =>
    have h2 := u8_b2_le hhi
    intro x hx
    rcases List.mem_cons.mp hx with rfl | hx
    · omega
    rcases List.mem_cons.mp hx with rfl | hx
    · omega
    rcases List.mem_cons.mp hx with rfl | hx
    · omega
    rcases List.mem_cons.mp hx with rfl | hx
    · omega
    · exact ih x hx

theorem u8_splitPart {s : Str} (h : U8 s) (c : Nat) (hc : c < 128) :
    U8 (splitPart c s).1 ∧ ∀ seg ∈ (splitPart c s).2, U8 seg := by
  induction h with
  | nil => exact ⟨U8.nil, by intro seg hseg; simp [splitPart] at hseg⟩
  | @ascii b t hb ht ih =>
    by_cases hbc : b = c
    · simp only [splitPart, if_pos hbc]
      refine ⟨U8.nil, ?_⟩
      intro seg hseg
      rcases List.mem_cons.mp hseg with rfl | hseg
      · exact ih.1
      · exact ih.2 seg hseg
    · simp only [splitPart, if_neg hbc]
      exact ⟨U8.ascii hb ih.1, ih.2⟩
  | @two b1 b2 t hb1 hb2 hc1 hc2 ht ih =>
    simp only [splitPart, if_neg (by omega : ¬ b2 = c), if_neg (by omega : ¬ b1 = c)]
    exact ⟨U8.two hb1 hb2 hc1 hc2 ih.1, ih.2⟩
  | @three b1 b2 b3 t hb1 hb2 hlo hhi hc1 hc2 ht ih =>
    have h2 := u8_b2_ge hlo
    simp only [splitPart, if_neg (by omega : ¬ b3 = c), if_neg (by omega : ¬ b2 = c),
      if_neg (by omega : ¬ b1 = c)]
    exact ⟨U8.three hb1 hb2 hlo hhi hc1 hc2 ih.1, ih.2⟩
  | @four b1 b2 b3 b4 t hb1 hb2 hlo hhi hc1 hc2 hd1 hd2 ht ih =>
    have h2 := u8_b2_ge hlo
    simp only [splitPart, if_neg (by omega : ¬ b4 = c), if_neg (by omega : ¬ b3 = c),
      if_neg (by omega : ¬ b2 = c), if_neg (by omega : ¬ b1 = c)]
    exact ⟨U8.four hb1 hb2 hlo hhi hc1 hc2 hd1 hd2 ih.1, ih.2⟩

theorem u8_replaceByte {s : Str} (h : U8 s) : U8 (replaceByte 43 32 s) := by
  induction h with
  | nil => exact U8.nil
  | @ascii b t hb ht ih =>
    rw [replaceByte]
    by_cases hb43 : b = 43
    · rw [if_pos hb43]; exact U8.ascii (by omega) ih
    · rw [if_neg hb43]; exact U8.ascii hb ih
  | @two b1 b2 t hb1 hb2 hc1 hc2 ht ih =>
    rw [replaceByte, replaceByte, if_neg (by omega), if_neg (by omega)]
    exact U8.two hb1 hb2 hc1 hc2 ih
  | @three b1 b2 b3 t hb1 hb2 hlo hhi hc1 hc2 ht ih =>
    have h2 := u8_b2_ge hlo
    rw [replaceByte, replaceByte, replaceByte, if_neg (by omega), if_neg (by omega),
      if_neg (by omega)]
    exact U8.three hb1 hb2 hlo hhi hc1 hc2 ih
  | @four b1 b2 b3 b4 t hb1 hb2 hlo hhi hc1 hc2 hd1 hd2 ht ih =>
    have h2 := u8_b2_ge hlo
    rw [replaceByte, replaceByte, replaceByte, replaceByte, if_neg (by omega),
      if_neg (by omega), if_neg (by omega), if_neg (by omega)]
    exact U8.four hb1 hb2 hlo hhi hc1 hc2 hd1 hd2 ih

theorem utf8Check_split1 {s : Str} (h : utf8Check s = true) {c : Nat} (hc : c < 128) :
    ∀ seg ∈ split1 c s, utf8Check seg = true := by
  intro seg hseg
  have hu := u8_splitPart (utf8Check_sound h) c hc
  rcases List.mem_cons.mp hseg with rfl | hseg
  · exact utf8Check_complete hu.1
  · exact utf8Check_complete (hu.2 seg hseg)

theorem utf8Check_replaceByte {s : Str} (h : utf8Check s = true) :
    utf8Check (replaceByte 43 32 s) = true :=
  utf8Check_complete (u8_replaceByte (utf8Check_sound h))

theorem utf8Check_bytes_lt {s : Str} (h : utf8Check s = true) : ∀ b ∈ s, b < 256 :=
  u8_bytes_lt (utf8Check_sound h)

theorem utf8Check_cons_ascii {b : Nat} {t : Str} (hb : b < 128)
    (h : utf8Check (b :: t) = true) : utf8Check t = true := by
  rw [utf8Check.eq_def] at h; dsimp only at h
  rwa [if_pos hb] at h

theorem hexVal_hexDigitU {n : Nat} (h : n < 16) : hexVal (hexDigitU n) = some n := by
  interval_cases n <;> decide

theorem notUnreserved_37 : isUnreserved 37 = false := by decide

theorem percentDecode_encByte {b : Nat} (hb : b < 256) (rest : Str) :
    percentDecode (encByte b ++ rest) = b :: percentDecode rest := by
  by_cases hu : isUnreserved b = true
  · have hb37 : ¬ b = 37 := by
      intro h; rw [h] at hu; exact absurd hu (by decide)
    rw [encByte, if_pos hu, List.cons_append, List.nil_append, percentDecode.eq_def]
    dsimp only
    rw [if_neg hb37]
  · rw [encByte, if_neg hu]
    rw [List.cons_append, List.cons_append, List.cons_append, List.nil_append]
    rw [percentDecode.eq_def]
    dsimp only
    rw [if_pos rfl]
    rw [hexVal_hexDigitU (by omega : b / 16 < 16),
      hexVal_hexDigitU (by omega : b % 16 < 16)]
    dsimp only
    rw [Nat.div_add_mod]

theorem percentDecode_urlEncode {s : Str} (hb : ∀ b ∈ s, b < 256) :
    percentDecode (urlEncode s) = s := by
  induction s with
  | nil => rfl
  | cons b t ih =>
    rw [urlEncode, percentDecode_encByte (hb b (by simp)),
      ih (fun x hx => hb x (by simp [hx]))]

theorem urlDecode_urlEncode {s : Str} (h : utf8Check s = true) :
    urlDecode (urlEncode s) = some s := by
  rw [urlDecode, percentDecode_urlEncode (utf8Check_bytes_lt h), if_pos h]

theorem mem_urlEncode_ne {s : Str} {d : Nat} (hd : d ∈ urlEncode s) :
    d ≠ 38 ∧ d ≠ 61 := by
  induction s with
  | nil => simp [urlEncode] at hd
  | cons b t ih =>
    rw [urlEncode] at hd
    rcases List.mem_append.mp hd with hd | hd
    · rw [encByte] at hd
      by_cases hu : isUnreserved b = true
      · rw [if_pos hu] at hd
        simp at hd
        subst hd
        revert hu
        unfold isUnreserved
        intro hu
        simp only [Bool.or_eq_true, Bool.and_eq_true, decide_eq_true_eq] at hu
        omega
      · rw [if_neg hu] at hd
        simp at hd
        rcases hd with rfl | rfl | rfl
        · omega
        · unfold hexDigitU; split_ifs <;> omega
        · unfold hexDigitU; split_ifs <;> omega
    · exact ih hd

theorem replaceByte_id {s : Str} (h : 43 ∉ s) : replaceByte 43 32 s = s := by
  induction s with
  | nil => rfl
  | cons b t ih =>
    rw [replaceByte,
      if_neg (fun hb => h (by rw [← hb]; exact List.mem_cons_self b t)),
      ih (fun hm => h (List.mem_cons_of_mem b hm))]

theorem replaceByte_not_mem (s : Str) : 43 ∉ replaceByte 43 32 s := by
  induction s with
  | nil => simp [replaceByte]
  | cons b t ih =>
    rw [replaceByte]
    intro hmem
    rcases List.mem_cons.mp hmem with heq | hmem
    · by_cases hb : b = 43
      · rw [if_pos hb] at heq; omega
      · rw [if_neg hb] at heq; exact hb heq.symm
    · exact ih hmem

theorem decodeOr_check {x : Str} (h : utf8Check x = true) :
    utf8Check (decodeOr x) = true := by
  rw [decodeOr, urlDecode]
  by_cases hd : utf8Check (percentDecode x) = true
  · rw [if_pos hd]; exact hd
  · rw [if_neg hd]; exact h

theorem normPart_strOk {x : Str} (h : utf8Check x = true) : StrOk (normPart x) :=
  ⟨utf8Check_replaceByte (decodeOr_check h), replaceByte_not_mem _⟩

theorem normPart_urlEncode {k : Str} (hk : utf8Check k = true) (hp : 43 ∉ k) :
    normPart (urlEncode k) = k := by
  rw [normPart, decodeOr, urlDecode_urlEncode hk, replaceByte_id hp]

theorem splitPart_not_mem {c : Nat} {s : Str} (h : c ∉ s) : splitPart c s = (s, []) := by
  induction s with
  | nil => rfl
  | cons b t ih =>
    have hb : ¬ b = c := fun hb => h (by rw [hb]; exact List.mem_cons_self c t)
    simp only [splitPart, ih (fun hm => h (List.mem_cons_of_mem b hm)), if_neg hb]

theorem split1_not_mem {c : Nat} {s : Str} (h : c ∉ s) : split1 c s = [s] := by
  rw [split1, splitPart_not_mem h]

theorem splitPart_append {c : Nat} {x : Str} (h : c ∉ x) (t : Str) :
    splitPart c (x ++ c :: t) = (x, split1 c t) := by
  induction x with
  | nil => simp [splitPart, split1]
  | cons b x' ih =>
    have hb : ¬ b = c := fun hb => h (by rw [hb]; exact List.mem_cons_self c x')
    rw [List.cons_append]
    simp only [splitPart, ih (fun hm => h (List.mem_cons_of_mem b hm)), if_neg hb]

theorem split1_append {c : Nat} {x : Str} (h : c ∉ x) (t : Str) :
    split1 c (x ++ c :: t) = x :: split1 c t := by
  rw [split1, splitPart_append h]

theorem interS_append {α : Type} {sep : List α} :
    ∀ (a b : List (List α)), a ≠ [] → b ≠ [] →
      interS sep (a ++ b) = interS sep a ++ sep ++ interS sep b
  | [], _, ha, _ => absurd rfl ha
  | [x], b, _, hb => by
    cases b with
    | nil => exact absurd rfl hb
    | cons y t => rw [List.singleton_append, interS, interS]
  | x :: y :: t, b, _, hb => by
    rw [List.cons_append, List.cons_append, interS,
      show y :: (t ++ b) = (y :: t) ++ b from rfl,
      interS_append (y :: t) b (by simp) hb, interS]
    simp [List.append_assoc]

theorem split1_interS {c : Nat} :
    ∀ (segs : List Str), segs ≠ [] → (∀ seg ∈ segs, c ∉ seg) →
      split1 c (interS [c] segs) = segs
  | [], hne, _ => absurd rfl hne
  | [x], _, hmem => by
    rw [interS, split1_not_mem (hmem x (by simp))]
  | x :: y :: t, _, hmem => by
    rw [interS, List.append_assoc, List.singleton_append,
      split1_append (hmem x (by simp)),
      split1_interS (y :: t) (by simp) (fun seg hseg => hmem seg (by simp [hseg]))]

theorem interS_ne {α : Type} {sep : List α} :
    ∀ (segs : List (List α)), segs ≠ [] → (∀ seg ∈ segs, seg ≠ []) →
      interS sep segs ≠ []
  | [], hne, _ => absurd rfl hne
  | [x], _, hmem => by rw [interS]; exact hmem x (by simp)
  | x :: y :: t, _, hmem => by
    rw [interS]
    intro hcon
    rcases List.append_eq_nil.mp (List.append_eq_nil.mp hcon).1 with ⟨hx, _⟩
    exact hmem x (by simp) hx

theorem interS_flatten {α : Type} {sep : List α} :
    ∀ (ls : List (List (List α))), (∀ l ∈ ls, l ≠ []) →
      interS sep (ls.map (interS sep)) = interS sep ls.flatten
  | [], _ => rfl
  | [l], _ => by simp [interS]
  | l :: l2 :: t, hmem => by
    rw [List.map_cons, List.flatten_cons,
      show interS sep (interS sep l :: List.map (interS sep) (l2 :: t)) =
        interS sep [interS sep l] ++ sep ++ interS sep (List.map (interS sep) (l2 :: t)) from by
          rw [List.map_cons]; rw [interS, interS],
      interS_flatten (l2 :: t) (fun x hx => hmem x (by simp [hx])), interS,
      interS_append l (l2 :: t).flatten (hmem l (by simp)) (by
        rw [List.flatten_cons]
        intro hc
        exact hmem l2 (by simp) (List.append_eq_nil.mp hc).1)]

theorem dropTrailing_concat_pos {α : Type} (p : α → Bool) (x : α) (hx : p x = true)
    (s : List α) : dropTrailing p (s ++ [x]) = dropTrailing p s := by
  rw [dropTrailing, dropTrailing, List.reverse_append, List.reverse_singleton,
    List.singleton_append, List.dropWhile_cons_of_pos hx]

theorem dropTrailing_last_neg {α : Type} {p : α → Bool} {s : List α}
    (h : ∀ x, s.getLast? = some x → p x = false) : dropTrailing p s = s := by
  rw [dropTrailing]
  cases hrev : s.reverse with
  | nil =>
    have hs : s = [] := by simpa using congrArg List.reverse hrev
    simp [hs]
  | cons a t =>
    have ha : s.getLast? = some a := by
      rw [← List.head?_reverse, hrev]; rfl
    rw [List.dropWhile_cons_of_neg (by rw [h a ha]; simp), ← hrev, List.reverse_reverse]

theorem interS_getLast?_mem {α : Type} (sep : List α) :
    ∀ (segs : List (List α)), segs ≠ [] → (∀ seg ∈ segs, seg ≠ []) →
      ∃ x, (interS sep segs).getLast? = some x ∧ ∃ seg ∈ segs, x ∈ seg
  | [], hne, _ => absurd rfl hne
  | [l], _, hmem => by
    rw [interS]
    have hl := hmem l (by simp)
    exact ⟨l.getLast hl, List.getLast?_eq_getLast_of_ne_nil hl,
      l, by simp, List.getLast_mem hl⟩
  | l :: l2 :: t, _, hmem => by
    rw [interS]
    have hne' : interS sep (l2 :: t) ≠ [] :=
      interS_ne (l2 :: t) (by simp) (fun seg hseg => hmem seg (by simp [hseg]))
    obtain ⟨x, hx, seg, hseg, hxseg⟩ :=
      interS_getLast?_mem sep (l2 :: t) (by simp)
        (fun seg hseg => hmem seg (by simp [hseg]))
    refine ⟨x, ?_, seg, by simp [hseg], hxseg⟩
    rw [List.append_assoc, List.getLast?_append_of_ne_nil _
      (fun hc => hne' (List.append_eq_nil.mp hc).2),
      List.getLast?_append_of_ne_nil _ hne', hx]

theorem segOf_no_38 {k v : Str} : ∀ b ∈ segOf k v, b ≠ 38 := by
  intro b hb
  rw [segOf] at hb
  rcases List.mem_append.mp hb with hb | hb
  · exact (mem_urlEncode_ne hb).1
  · rcases List.mem_cons.mp hb with rfl | hb
    · omega
    · exact (mem_urlEncode_ne hb).1

theorem segOf_ne_nil {k v : Str} : segOf k v ≠ [] := by
  rw [segOf]
  intro hc
  exact List.cons_ne_nil 61 (urlEncode v) (List.append_eq_nil.mp hc).2

theorem parse_segOf {k v : Str} (hk : StrOk k) (hv : StrOk v) :
    SearchParam.parse (segOf k v) = .ok ⟨k, [v]⟩ := by
  have h61k : (61 : Nat) ∉ urlEncode k := fun hm => (mem_urlEncode_ne hm).2 rfl
  have h61v : (61 : Nat) ∉ urlEncode v := fun hm => (mem_urlEncode_ne hm).2 rfl
  rw [SearchParam.parse, segOf, split1_append h61k, split1_not_mem h61v]
  dsimp only
  rw [normPart_urlEncode hk.1 hk.2, normPart_urlEncode hv.1 hv.2]

theorem updateFirst_append {k : Str} {acc : List SearchParam}
    (hacc : ∀ q ∈ acc, q.name ≠ k) (w : List Str) (v : Str) :
    updateFirst k v (acc ++ [⟨k, w⟩]) = acc ++ [⟨k, w ++ [v]⟩] := by
  induction acc with
  | nil => simp [updateFirst]
  | cons q t ih =>
    rw [List.cons_append, updateFirst, if_neg (hacc q (by simp)),
      ih (fun q' hq' => hacc q' (by simp [hq']))]
    rfl

theorem mergePush_existing {k : Str} {acc : List SearchParam}
    (hacc : ∀ q ∈ acc, q.name ≠ k) (w : List Str) (v : Str) :
    mergePush (acc ++ [⟨k, w⟩]) ⟨k, [v]⟩ = acc ++ [⟨k, w ++ [v]⟩] := by
  rw [mergePush, if_pos]
  · dsimp only
    rw [List.headD_cons, updateFirst_append hacc w v]
  simp only [List.any_eq_true, decide_eq_true_eq]
  exact ⟨⟨k, w⟩, by simp, rfl⟩

theorem mergePush_new (q : SearchParam) {acc : List SearchParam}
    (hacc : ∀ q' ∈ acc, q'.name ≠ q.name) : mergePush acc q = acc ++ [q] := by
  rw [mergePush, if_neg]
  simp only [List.any_eq_true, decide_eq_true_eq, not_exists, not_and]
  exact fun q' hq' => hacc q' hq'

theorem parseLoop_absorb {k : Str} (hk : StrOk k) :
    ∀ (vs : List Str), (∀ v ∈ vs, StrOk v) →
      ∀ (w : List Str) (acc : List SearchParam) (rest : List Str),
        (∀ q ∈ acc, q.name ≠ k) →
        parseLoop (acc ++ [⟨k, w⟩]) (vs.map (segOf k) ++ rest) =
          parseLoop (acc ++ [⟨k, w ++ vs⟩]) rest
  | [], _, w, acc, rest, _ => by simp
  | v :: vs', hvs, w, acc, rest, hacc => by
    rw [List.map_cons, List.cons_append, parseLoop,
      parse_segOf hk (hvs v (by simp))]
    dsimp only
    rw [mergePush_existing hacc w v,
      parseLoop_absorb hk vs' (fun x hx => hvs x (by simp [hx])) (w ++ [v]) acc rest hacc,
      List.append_assoc, List.singleton_append]

theorem parseLoop_reconstruct :
    ∀ (ps : List SearchParam), (ps.map SearchParam.name).Pairwise (fun a b => a ≠ b) →
      (∀ q ∈ ps, ParamOk q) →
      ∀ (acc : List SearchParam), (∀ q ∈ ps, ∀ q' ∈ acc, q'.name ≠ q.name) →
        parseLoop acc ((ps.map segsOfParam).flatten) = .ok (acc ++ ps)
  | [], _, _, acc, _ => by simp [parseLoop]
  | q :: ps', hpw, hok, acc, hdisj => by
    rw [List.map_cons] at hpw
    obtain ⟨hhead, htail⟩ := List.pairwise_cons.mp hpw
    obtain ⟨hkOk, hvne, hvOk⟩ := hok q (by simp)
    cases hv : q.values with
    | nil => exact absurd hv hvne
    | cons v0 vs' =>
      have hv0 : StrOk v0 := hvOk v0 (by rw [hv]; simp)
      rw [List.map_cons, List.flatten_cons, segsOfParam, hv, List.map_cons,
        List.cons_append, parseLoop, parse_segOf hkOk hv0]
      dsimp only
      rw [mergePush_new ⟨q.name, [v0]⟩ (fun q' hq' => hdisj q (by simp) q' hq'),
        parseLoop_absorb hkOk vs' (fun x hx => hvOk x (by rw [hv]; simp [hx])) [v0] acc _
          (fun q' hq' => hdisj q (by simp) q' hq'),
        show (⟨q.name, [v0] ++ vs'⟩ : SearchParam) = q from by
          rw [List.singleton_append, ← hv]]
      rw [parseLoop_reconstruct ps' htail
        (fun x hx => hok x (by simp [hx])) (acc ++ [q]) ?_, List.append_assoc,
        List.singleton_append]
      intro q2 hq2 q' hq'
      rcases List.mem_append.mp hq' with hq' | hq'
      · exact hdisj q2 (by simp [hq2]) q' hq'
      · have hq'q : q' = q := by simpa using hq'
        subst hq'q
        exact hhead q2.name (List.mem_map_of_mem _ hq2)

theorem parse_seg_ok {seg : Str} (hseg : utf8Check seg = true) {q : SearchParam}
    (h : SearchParam.parse seg = .ok q) :
    StrOk q.name ∧ ∃ v, q.values = [v] ∧ StrOk v := by
  have hmem := utf8Check_split1 hseg (by omega : (61 : Nat) < 128)
  rw [SearchParam.parse] at h
  cases hsp : split1 61 seg with
  | nil => rw [hsp] at h; cases h
  | cons n t =>
    cases t with
    | nil => rw [hsp] at h; cases h
    | cons v t2 =>
      cases t2 with
      | nil =>
        rw [hsp] at h
        have hq : q = ⟨normPart n, [normPart v]⟩ := by
          cases h; rfl
        subst hq
        have hn : utf8Check n = true := hmem n (by rw [hsp]; simp)
        have hv : utf8Check v = true := hmem v (by rw [hsp]; simp)
        exact ⟨normPart_strOk hn, normPart v, rfl, normPart_strOk hv⟩
      | cons w t3 => rw [hsp] at h; cases h

theorem updateFirst_names (k : Str) (v : Str) :
    ∀ (l : List SearchParam),
      (updateFirst k v l).map SearchParam.name = l.map SearchParam.name
  | [] => rfl
  | q :: t => by
    rw [updateFirst]
    by_cases hq : q.name = k
    · rw [if_pos hq]; rfl
    · rw [if_neg hq, List.map_cons, List.map_cons, updateFirst_names k v t]

theorem updateFirst_mem {k : Str} {v : Str} :
    ∀ {l : List SearchParam} {q : SearchParam}, q ∈ updateFirst k v l →
      q ∈ l ∨ ∃ q' ∈ l, q = ⟨q'.name, q'.values ++ [v]⟩ := by
  intro l
  induction l with
  | nil => intro q hq; rw [updateFirst] at hq; simp at hq
  | cons p t ih =>
    intro q hq
    rw [updateFirst] at hq
    by_cases hp : p.name = k
    · rw [if_pos hp] at hq
      rcases List.mem_cons.mp hq with rfl | hq
      · exact Or.inr ⟨p, by simp, rfl⟩
      · exact Or.inl (List.mem_cons_of_mem p hq)
    · rw [if_neg hp] at hq
      rcases List.mem_cons.mp hq with rfl | hq
      · exact Or.inl (by simp)
      · rcases ih hq with hq | ⟨q', hq', hval⟩
        · exact Or.inl (List.mem_cons_of_mem p hq)
        · exact Or.inr ⟨q', List.mem_cons_of_mem p hq', hval⟩

theorem updateFirst_length (k : Str) (v : Str) :
    ∀ (l : List SearchParam), (updateFirst k v l).length = l.length
  | [] => rfl
  | q :: t => by
    rw [updateFirst]
    by_cases hq : q.name = k
    · rw [if_pos hq]; rfl
    · rw [if_neg hq, List.length_cons, List.length_cons, updateFirst_length k v t]

theorem mergePush_params_ok {acc : List SearchParam} (hacc : ParamsOk acc)
    {q : SearchParam} (hname : StrOk q.name) {v : Str} (hval : q.values = [v])
    (hv : StrOk v) : ParamsOk (mergePush acc q) := by
  rw [mergePush]
  by_cases hany : (acc.any fun x => x.name = q.name) = true
  · rw [if_pos hany]
    constructor
    · rw [updateFirst_names]
      exact hacc.1
    · intro p hp
      rcases updateFirst_mem hp with hp | ⟨q', hq', rfl⟩
      · exact hacc.2 p hp
      · obtain ⟨hn, hne, hvs⟩ := hacc.2 q' hq'
        refine ⟨hn, by simp, ?_⟩
        intro x hx
        rcases List.mem_append.mp hx with hx | hx
        · exact hvs x hx
        · have hxv : x = q.values.headD [] := by simpa using hx
          rw [hxv, hval, List.headD_cons]
          exact hv
  · rw [if_neg hany]
    simp only [List.any_eq_true, decide_eq_true_eq, not_exists, not_and] at hany
    constructor
    · rw [List.map_append]
      rw [List.pairwise_append]
      refine ⟨hacc.1, by simp, ?_⟩
      intro a ha b hb
      have hb' : b = q.name := by simpa using hb
      obtain ⟨p, hp, rfl⟩ := List.mem_map.mp ha
      rw [hb']
      exact fun hc => hany p hp hc
    · intro p hp
      rcases List.mem_append.mp hp with hp | hp
      · exact hacc.2 p hp
      · have hpq : p = q := by simpa using hp
        subst hpq
        exact ⟨hname, by rw [hval]; simp, by
          intro x hx
          rw [hval] at hx
          have : x = v := by simpa using hx
          rw [this]; exact hv⟩

theorem parseLoop_params_ok :
    ∀ (segs : List Str) (acc l : List SearchParam), ParamsOk acc →
      (∀ seg ∈ segs, utf8Check seg = true) → parseLoop acc segs = .ok l → ParamsOk l
  | [], acc, l, hacc, _, h => by
    rw [parseLoop] at h
    cases h
    exact hacc
  | seg :: rest, acc, l, hacc, hchk, h => by
    rw [parseLoop] at h
    cases hp : SearchParam.parse seg with
    | error e => rw [hp] at h; cases h
    | ok q =>
      rw [hp] at h
      dsimp only at h
      obtain ⟨hname, v, hval, hv⟩ := parse_seg_ok (hchk seg (by simp)) hp
      exact parseLoop_params_ok rest (mergePush acc q) l
        (mergePush_params_ok hacc hname hval hv)
        (fun x hx => hchk x (by simp [hx])) h

theorem mergePush_ne_nil (acc : List SearchParam) (q : SearchParam) :
    mergePush acc q ≠ [] := by
  rw [mergePush]
  by_cases hany : (acc.any fun x => x.name = q.name) = true
  · rw [if_pos hany]
    obtain ⟨x, hx, _⟩ := List.any_eq_true.mp hany
    intro hc
    have := updateFirst_length q.name (q.values.headD []) acc
    rw [hc] at this
    cases acc with
    | nil => simp at hx
    | cons a t => simp at this
  · rw [if_neg hany]
    simp

theorem parseLoop_ne_nil :
    ∀ (segs : List Str) (acc l : List SearchParam), acc ≠ [] →
      parseLoop acc segs = .ok l → l ≠ []
  | [], acc, l, hacc, h => by
    rw [parseLoop] at h
    cases h
    exact hacc
  | seg :: rest, acc, l, hacc, h => by
    rw [parseLoop] at h
    cases hp : SearchParam.parse seg with
    | error e => rw [hp] at h; cases h
    | ok q =>
      rw [hp] at h
      dsimp only at h
      exact parseLoop_ne_nil rest (mergePush acc q) l (mergePush_ne_nil acc q) h

theorem searchParams_parse_ok_props {s : Str} (hs : utf8Check s = true)
    {p : SearchParams} (hp : SearchParams.parse s = .ok p) :
    ParamsOk p.params ∧ p.params ≠ [] := by
  rw [SearchParams.parse] at hp
  have hs' : utf8Check (if s.head? = some 63 then s.tail else s) = true := by
    split
    · cases s with
      | nil => exact hs
      | cons b t =>
        rename_i hhead
        have hb : b = 63 := by simpa using hhead
        exact utf8Check_cons_ascii (by omega) (hb ▸ hs)
    · exact hs
  cases hloop : parseLoop [] (split1 38 (if s.head? = some 63 then s.tail else s)) with
  | error e => rw [hloop] at hp; cases hp
  | ok l =>
    rw [hloop] at hp
    dsimp only at hp
    have hpl : p = ⟨l⟩ := by cases hp; rfl
    subst hpl
    constructor
    · exact parseLoop_params_ok _ [] l ⟨by simp, by simp⟩
        (fun seg hseg => utf8Check_split1 hs' (by omega) seg hseg) hloop
    · rw [split1] at hloop
      rw [parseLoop] at hloop
      cases hpp : SearchParam.parse (splitPart 38 (if s.head? = some 63 then s.tail else s)).1 with
      | error e => rw [hpp] at hloop; cases hloop
      | ok q =>
        rw [hpp] at hloop
        dsimp only at hloop
        exact parseLoop_ne_nil _ _ l (mergePush_ne_nil [] q) hloop

theorem flatten_map_concat {α : Type} {c : α} :
    ∀ (ls : List (List α)), ls ≠ [] →
      (ls.map (fun x => x ++ [c])).flatten = interS [c] ls ++ [c]
  | [], hne => absurd rfl hne
  | [x], _ => by simp [interS]
  | x :: y :: t, _ => by
    rw [List.map_cons, List.flatten_cons, flatten_map_concat (y :: t) (by simp), interS]
    simp [List.append_assoc]

theorem searchParam_to_string_eq (q : SearchParam) (hvs : q.values ≠ []) :
    SearchParam.to_string q = interS [38] (segsOfParam q) := by
  rw [SearchParam.to_string]
  have hfn : (fun (acc : Str) v => acc ++ urlEncode q.name ++ 61 :: urlEncode v ++ [38]) =
      (fun (acc : Str) v => acc ++ (segOf q.name v ++ [38])) := by
    funext acc v
    rw [segOf]
    simp [List.append_assoc]
  rw [hfn, foldl_append_absorb, List.nil_append]
  have hmm : (fun v => segOf q.name v ++ [38]) =
      ((fun x => x ++ [38]) ∘ segOf q.name) := rfl
  rw [hmm, ← List.map_map, flatten_map_concat _
    (by intro hc; simp at hc; exact hvs hc),
    List.dropLast_concat, segsOfParam]

theorem searchParams_to_string_eq {p : SearchParams} (hne : p.params ≠ [])
    (hvals : ∀ q ∈ p.params, q.values ≠ []) :
    SearchParams.to_string p =
      63 :: interS [38] ((p.params.map segsOfParam).flatten) := by
  rw [SearchParams.to_string,
    if_neg (by rw [List.length_eq_zero]; exact hne)]
  have hfn : (fun (acc : Str) (q : SearchParam) => acc ++ q.to_string ++ [38]) =
      (fun (acc : Str) q => acc ++ (q.to_string ++ [38])) := by
    funext acc q
    simp [List.append_assoc]
  rw [hfn, foldl_append_absorb, List.nil_append]
  have hmm : (fun (q : SearchParam) => q.to_string ++ [38]) =
      ((fun x => x ++ [38]) ∘ SearchParam.to_string) := rfl
  rw [hmm, ← List.map_map, flatten_map_concat _
    (by intro hc; simp at hc; exact hne hc)]
  have hmap : p.params.map SearchParam.to_string =
      (p.params.map segsOfParam).map (interS [38]) := by
    rw [List.map_map]
    exact List.map_congr_left (fun q hq => searchParam_to_string_eq q (hvals q hq))
  rw [hmap, interS_flatten _ (by
    intro l hl
    obtain ⟨q, hq, rfl⟩ := List.mem_map.mp hl
    rw [segsOfParam]
    intro hc
    simp at hc
    exact hvals q hq hc)]
  rw [show (63 : Nat) :: (interS [38] (p.params.map segsOfParam).flatten ++ [38]) =
      ((63 : Nat) :: interS [38] (p.params.map segsOfParam).flatten) ++ [38] from rfl,
    dropTrailing_concat_pos (fun b => decide (b = 38)) 38 (by simp),
    dropTrailing_last_neg]
  intro x hx
  have hsne : (p.params.map segsOfParam).flatten ≠ [] := by
    cases hps : p.params with
    | nil => exact absurd hps hne
    | cons q t =>
      rw [List.map_cons, List.flatten_cons]
      intro hc
      have hsq : segsOfParam q = [] := (List.append_eq_nil.mp hc).1
      rw [segsOfParam] at hsq
      simp at hsq
      exact hvals q (by rw [hps]; simp) hsq
  have hsegsne : ∀ seg ∈ (p.params.map segsOfParam).flatten, seg ≠ [] := by
    intro seg hseg
    obtain ⟨l, hl, hsegl⟩ := List.mem_flatten.mp hseg
    obtain ⟨q, _, rfl⟩ := List.mem_map.mp hl
    rw [segsOfParam] at hsegl
    obtain ⟨v, _, rfl⟩ := List.mem_map.mp hsegl
    exact segOf_ne_nil
  have hinterne : interS [38] (p.params.map segsOfParam).flatten ≠ [] :=
    interS_ne _ hsne hsegsne
  obtain ⟨y, hy, seg, hseg, hyseg⟩ :=
    interS_getLast?_mem [38] (p.params.map segsOfParam).flatten hsne hsegsne
  rw [show ((63 : Nat) :: interS [38] (p.params.map segsOfParam).flatten) =
      [63] ++ interS [38] (p.params.map segsOfParam).flatten from rfl,
    List.getLast?_append_of_ne_nil _ hinterne, hy] at hx
  have hxy : x = y := by cases hx; rfl
  subst hxy
  obtain ⟨l, hl, hsegl⟩ := List.mem_flatten.mp hseg
  obtain ⟨q, _, rfl⟩ := List.mem_map.mp hl
  rw [segsOfParam] at hsegl
  obtain ⟨v, _, rfl⟩ := List.mem_map.mp hsegl
  simp only [decide_eq_false_iff_not]
  exact segOf_no_38 x hyseg

theorem segs_flatten_no_38 {p : SearchParams} :
    ∀ seg ∈ (p.params.map segsOfParam).flatten, (38 : Nat) ∉ seg := by
  intro seg hseg hmem
  obtain ⟨l, hl, hsegl⟩ := List.mem_flatten.mp hseg
  obtain ⟨q, _, rfl⟩ := List.mem_map.mp hl
  rw [segsOfParam] at hsegl
  obtain ⟨v, _, rfl⟩ := List.mem_map.mp hsegl
  exact segOf_no_38 38 hmem rfl

theorem segs_flatten_ne {p : SearchParams} (hne : p.params ≠ [])
    (hvals : ∀ q ∈ p.params, q.values ≠ []) :
    (p.params.map segsOfParam).flatten ≠ [] := by
  cases hps : p.params with
  | nil => exact absurd hps hne
  | cons q t =>
    rw [List.map_cons, List.flatten_cons]
    intro hc
    have hsq : segsOfParam q = [] := (List.append_eq_nil.mp hc).1
    rw [segsOfParam] at hsq
    simp at hsq
    exact hvals q (by rw [hps]; simp) hsq

/-- C5.  The query-string round trip: for every UTF-8 query string `s` that
`SearchParams::parse` accepts, formatting the result and re-parsing yields
exactly the same structure — the same keys in first-seen order, each with
the same ordered value list (the strings compare equal because percent
escapes were already canonicalized by the first parse). -/
theorem c5_query_string_roundtrip (s : Str) (p : SearchParams)
    (hs : utf8Check s = true) (hp : SearchParams.parse s = .ok p) :
    SearchParams.parse (SearchParams.to_string p) = .ok p := by
  obtain ⟨⟨hpw, hok⟩, hne⟩ := searchParams_parse_ok_props hs hp
  have hvals : ∀ q ∈ p.params, q.values ≠ [] := fun q hq => (hok q hq).2.1
  rw [searchParams_to_string_eq hne hvals, SearchParams.parse]
  have hhead : ((63 : Nat) :: interS [38] (p.params.map segsOfParam).flatten).head? =
      some 63 := rfl
  rw [if_pos hhead, List.tail_cons, split1_interS _ (segs_flatten_ne hne hvals)
    segs_flatten_no_38,
    parseLoop_reconstruct p.params hpw hok []
      (fun q _ q' hq' => absurd hq' (List.not_mem_nil q'))]
  simp

/-- C5 witness: the concrete query string `"a=1&a=2&b=%41"` parses, and the
parse of its formatted form is the same structure. -/
theorem c5_query_string_roundtrip_witness :
    utf8Check witnessQuery = true ∧
    SearchParams.parse witnessQuery = .ok witnessParams ∧
    SearchParams.parse (SearchParams.to_string witnessParams) = .ok witnessParams :=
  ⟨by decide, by decide,
    c5_query_string_roundtrip witnessQuery witnessParams (by decide) (by decide)⟩
